import Mathlib

/-!
# Verification of the commitron core against its specification

Shallow embedding of the commitron repository's core algorithms
(pkg/tokenizer/tokenizer.go and pkg/ai/ai.go) in Lean 4, together with
theorems settling the specification claims about them.

Go strings are modelled as `List Char` (the programs under verification
only manipulate ASCII data, where Go's byte-oriented `len`/slicing and
rune-oriented operations coincide with character lists).
-/

set_option maxRecDepth 10000

/-- Go strings, modelled as character lists (ASCII fragment). -/
abbrev GoStr := List Char

/-- Literal helper: a Lean string literal as a `GoStr`. -/
def gs (s : String) : GoStr := s.toList

/-- Go `strings.Contains(s, sub)`: substring containment, as list infix. -/
def goContains (s sub : GoStr) : Bool := decide (sub <:+: s)

/-- Go `strings.HasPrefix(s, pre)`. -/
def goStartsWith (s pre : GoStr) : Bool := pre.isPrefixOf s

/-- Go `strings.HasSuffix(s, suf)`. -/
def goEndsWith (s suf : GoStr) : Bool := suf.isSuffixOf s

/-- ASCII whitespace as trimmed by Go's `strings.TrimSpace` (ASCII fragment). -/
def goIsSpace (c : Char) : Bool := c = ' ' ∨ c = '\t' ∨ c = '\n' ∨ c = '\r'

/-- Drop trailing whitespace: a character is kept unless it is whitespace
and everything after it is trailing whitespace as well. -/
def goTrimRight : GoStr → GoStr
  | [] => []
  | c :: rest =>
    let r := goTrimRight rest
    if r = [] ∧ goIsSpace c then [] else c :: r

/-- Go `strings.TrimSpace` (ASCII fragment). -/
def goTrimSpace (s : GoStr) : GoStr := goTrimRight (s.dropWhile goIsSpace)

/-- Go `strings.ToLower` (ASCII fragment). -/
def goToLower (s : GoStr) : GoStr := s.map Char.toLower

/-- The head surviving `dropWhile` does not satisfy the predicate. -/
theorem dropWhile_head_false (p : Char → Bool) :
    ∀ (l : GoStr) (c : Char) (cs : GoStr), l.dropWhile p = c :: cs → p c = false := by
  intro l
  induction l with
  | nil => intro c cs h; simp at h
  | cons a l ih =>
    intro c cs h
    rw [List.dropWhile_cons] at h
    split at h
    · exact ih c cs h
    · cases h
      rename_i ha
      simpa using ha

/-- `goTrimRight` empties a string exactly when it is all whitespace. -/
theorem goTrimRight_eq_nil_iff (s : GoStr) :
    goTrimRight s = [] ↔ ∀ c ∈ s, goIsSpace c := by
  induction s with
  | nil => simp [goTrimRight]
  | cons c rest ih =>
    simp only [goTrimRight]
    split
    · rename_i hsp
      simp only [List.mem_cons, true_iff]
      intro a ha
      rcases ha with ha | ha
      · subst ha; exact hsp.2
      · exact (ih.mp hsp.1) a ha
    · rename_i hsp
      simp only [not_and_or] at hsp
      simp only [List.cons_ne_nil, false_iff, not_forall]
      rcases hsp with hsp | hsp
      · obtain ⟨a, ha, hna⟩ := by
          have := (not_iff_not.mpr ih).mp hsp
          simpa [not_forall] using this
        exact ⟨a, List.mem_cons_of_mem c ha, by simpa using hna⟩
      · exact ⟨c, List.mem_cons_self c rest, by simpa using hsp⟩

/-- A nonempty `goTrimSpace` result starts with a non-whitespace character. -/
theorem goTrimSpace_head (s : GoStr) (h : goTrimSpace s ≠ []) :
    ∃ c cs, goTrimSpace s = c :: cs ∧ goIsSpace c = false := by
  unfold goTrimSpace at h ⊢
  cases hu : List.dropWhile goIsSpace s with
  | nil => rw [hu] at h; exact absurd rfl h
  | cons c u =>
    have hc := dropWhile_head_false goIsSpace s c u hu
    simp only [goTrimRight]
    rw [if_neg (by simp [hc])]
    exact ⟨c, goTrimRight u, rfl, hc⟩

/-- Go `strings.Split(s, "\n")` (single-character separator): one piece
per newline-free run, one more piece than newlines. -/
def goSplitLines : GoStr → List GoStr
  | [] => [[]]
  | c :: rest =>
    if c = '\n' then [] :: goSplitLines rest
    else
      match goSplitLines rest with
      | [] => [[c]]
      | l :: ls => (c :: l) :: ls

/-- Go `strings.Join(ls, "\n")`. -/
def goJoinLines : List GoStr → GoStr
  | [] => []
  | [l] => l
  | l :: l₂ :: ls => l ++ '\n' :: goJoinLines (l₂ :: ls)

/-- `Split` always returns at least one piece. -/
theorem goSplitLines_ne_nil (s : GoStr) : goSplitLines s ≠ [] := by
  cases s with
  | nil => simp [goSplitLines]
  | cons c rest =>
    simp only [goSplitLines]
    split
    · simp
    · cases hs : goSplitLines rest <;> simp

/-- Joining the split pieces with newlines reproduces the string. -/
theorem goJoin_goSplitLines (s : GoStr) : goJoinLines (goSplitLines s) = s := by
  induction s with
  | nil => rfl
  | cons c rest ih =>
    by_cases h : c = '\n'
    · subst h
      simp only [goSplitLines, if_pos rfl]
      cases hs : goSplitLines rest with
      | nil => exact absurd hs (goSplitLines_ne_nil rest)
      | cons l ls =>
        rw [hs] at ih
        simpa [goJoinLines] using ih
    · simp only [goSplitLines, if_neg h]
      cases hs : goSplitLines rest with
      | nil => exact absurd hs (goSplitLines_ne_nil rest)
      | cons l ls =>
        rw [hs] at ih
        cases ls with
        | nil => simpa [goJoinLines] using ih
        | cons l₂ ls' => simpa [goJoinLines] using ih

/-- A newline-free string splits into the single piece it is. -/
theorem goSplitLines_no_newline (s : GoStr) (h : '\n' ∉ s) : goSplitLines s = [s] := by
  induction s with
  | nil => rfl
  | cons c rest ih =>
    simp only [List.mem_cons, not_or] at h
    simp only [goSplitLines]
    rw [ih h.2, if_neg (fun hc => h.1 hc.symm)]

/-- Go `strings.TrimPrefix(s, pre)`: drop `pre` when it is a literal prefix. -/
def goTrimLeading (s pre : GoStr) : GoStr :=
  if pre.isPrefixOf s then s.drop pre.length else s

/-- Go `strings.Index(s, ":")`-style first index of a character, `-1` if absent. -/
def goIndexOfChar (s : GoStr) (c : Char) : Int :=
  match s.findIdx? (· = c) with
  | some i => i
  | none => -1

/-- Decimal rendering of a natural number (Go `fmt` `%d`). -/
def goItoa (n : Nat) : GoStr := (Nat.repr n).toList

/-- Go slice indexing `lines[i]` (total; every use site is in bounds). -/
def goLineAt (lines : List GoStr) (i : Nat) : GoStr := lines.getD i []

section Tokenizer

/-!
## pkg/tokenizer/tokenizer.go

The tiktoken-go library used by `CountTokens` is external to the
repository; it is modelled as an environment of two fallible encoding
lookups (`tiktoken.EncodingForModel`, `tiktoken.GetEncoding`), each
returning, on success, a token-counting function (Go: the length of
`encoding.Encode(text, nil, nil)`, a non-negative slice length).
-/

/-- The tiktoken-go library, as an abstract environment. -/
structure TokenEnv where
  encodingForModel : GoStr → Option (GoStr → Nat)
  getEncoding : GoStr → Option (GoStr → Nat)

/-- `CountTokens` from pkg/tokenizer/tokenizer.go.
The ultimate fallback `int(float64(len(text)) / 3.5)` equals
`⌊2·len/7⌋`: 3.5 is exactly representable in binary floating point, the
division is correctly rounded, and `2n/7` is never within one ulp of a
different integer for any feasible string length. -/
def countTokens (env : TokenEnv) (text model : GoStr) : Int :=
  if text = [] then 0
  else
    match env.encodingForModel model with
    | some encoding => encoding text
    | none =>
      match env.getEncoding (gs "cl100k_base") with
      | some encoding => encoding text
      | none => (2 * (text.length : Int)) / 7

/-- The truncation marker appended by `TruncateToTokenLimit`. -/
def truncationMarker : GoStr := gs "...[truncated to fit token limit]"

/-- The line-accumulation loop of `TruncateToTokenLimit`: keep whole lines
while the running per-line token total stays within `maxTokens`; on the
first line that would overflow, emit the marker and stop. -/
def truncateScan (env : TokenEnv) (model : GoStr) (maxTokens : Int) :
    List GoStr → Int → List GoStr
  | [], _ => []
  | line :: rest, currentTotal =>
    let lineTokens := countTokens env (line ++ ['\n']) model
    if maxTokens < currentTotal + lineTokens then [truncationMarker]
    else line :: truncateScan env model maxTokens rest (currentTotal + lineTokens)

/-- `TruncateToTokenLimit` from pkg/tokenizer/tokenizer.go. -/
def truncateToTokenLimit (env : TokenEnv) (text : GoStr) (maxTokens : Int)
    (model : GoStr) : GoStr :=
  if countTokens env text model ≤ maxTokens then text
  else goJoinLines (truncateScan env model maxTokens (goSplitLines text) 0)

/-- Cumulative per-line token cost as accumulated by the truncation loop. -/
def lineTokenSum (env : TokenEnv) (model : GoStr) (lines : List GoStr) : Int :=
  lines.foldr (fun l acc => countTokens env (l ++ ['\n']) model + acc) 0

/-- `GetProviderTokenLimit` from pkg/tokenizer/tokenizer.go. -/
def getProviderTokenLimit (provider model : GoStr) : Int :=
  let provider := goToLower provider
  let model := goToLower model
  if provider = gs "openai" then
    if goContains model (gs "gpt-4") ∨ goContains model (gs "gpt-5") then
      if goContains model (gs "turbo") ∨ goContains model (gs "128k") then 100000
      else 100000
    else if goContains model (gs "gpt-3.5-turbo") then
      if goContains model (gs "16k") then 12000
      else 3000
    else if goContains model (gs "o1") ∨ goContains model (gs "o3") then 100000
    else 100000
  else if provider = gs "claude" then
    if goContains model (gs "claude-3") ∨ goContains model (gs "claude-4") then 180000
    else 90000
  else if provider = gs "gemini" then
    if goContains model (gs "1.5") ∨ goContains model (gs "2.0") then 900000
    else 30000
  else if provider = gs "ollama" then 8000
  else 100000

end Tokenizer

/-- A tiktoken environment in which no encoding is available, so
`CountTokens` reaches its character-count fallback. -/
def envCharFallback : TokenEnv := ⟨fun _ => none, fun _ => none⟩

/-- A tiktoken environment in which model-specific lookup fails but the
`cl100k_base` encoding is available (the situation of the real library
for an unrecognized model name): that encoding here counts every text as
42 tokens. -/
def envCl100kOnly : TokenEnv :=
  ⟨fun _ => none, fun name => if name = gs "cl100k_base" then some (fun _ => 42) else none⟩

/-- C10: for every provider and model string, `GetProviderTokenLimit`
returns a positive limit, at least 3000; and 3000 is attained (openai,
gpt-3.5-turbo), so it is the smallest possible result. -/
theorem C10_provider_token_limit_bounds :
    (∀ provider model : GoStr,
      0 < getProviderTokenLimit provider model ∧
        3000 ≤ getProviderTokenLimit provider model) ∧
    getProviderTokenLimit (gs "openai") (gs "gpt-3.5-turbo") = 3000 := by
  constructor
  · intro provider model
    simp only [getProviderTokenLimit]
    split_ifs <;> norm_num
  · decide

/-- C7 (amended): `CountTokens` is non-negative for every environment,
text and model; the character-count heuristic `⌊2·len/7⌋` is used exactly
when both the model-specific encoding and the `cl100k_base` fallback
encoding are unavailable — an unrecognized model alone falls back to
`cl100k_base`, not to the character count. -/
theorem C7_count_tokens_amended :
    (∀ (env : TokenEnv) (text model : GoStr), 0 ≤ countTokens env text model) ∧
    (∀ (env : TokenEnv) (text model : GoStr),
      env.encodingForModel model = none →
      env.getEncoding (gs "cl100k_base") = none →
      countTokens env text model = (2 * (text.length : Int)) / 7) := by
  constructor
  · intro env text model
    unfold countTokens
    split
    · exact le_refl 0
    · cases henc : env.encodingForModel model with
      | some encoding => exact Int.natCast_nonneg _
      | none =>
        cases hget : env.getEncoding (gs "cl100k_base") with
        | some encoding => exact Int.natCast_nonneg _
        | none => exact Int.ediv_nonneg (by positivity) (by norm_num)
  · intro env text model h1 h2
    unfold countTokens
    rw [h1, h2]
    split
    · rename_i htext
      rw [htext]
      decide
    · rfl

/-- C7 witness: in an environment with no encodings at all, a 7-character
text counts as `⌊14/7⌋ = 2` tokens. -/
theorem C7_count_tokens_witness :
    countTokens envCharFallback (gs "aaaaaaa") (gs "mystery-model") = 2 := by
  have h := C7_count_tokens_amended.2 envCharFallback (gs "aaaaaaa") (gs "mystery-model") rfl rfl
  rw [h]
  decide

/-- C7 counterexample: for an unrecognized model in an environment where
(as with the real tiktoken library) the `cl100k_base` encoding is
available, `CountTokens` returns that encoding's count (42), not the
character-count heuristic (2): the claim "when the model is unrecognized
it falls back to a character-count heuristic" is false of the code. -/
theorem C7_count_tokens_counterexample :
    envCl100kOnly.encodingForModel (gs "mystery-model") = none ∧
    countTokens envCl100kOnly (gs "aaaaaaa") (gs "mystery-model") = 42 ∧
    (2 * ((gs "aaaaaaa").length : Int)) / 7 = 2 ∧ (42 : Int) ≠ 2 := by
  refine ⟨rfl, by decide, by decide, by decide⟩

/-- Invariant of the truncation loop: it emits some prefix of the lines
whose cumulative per-line token cost stays within the limit, followed by
the marker — or consumes every line without ever overflowing. -/
theorem truncateScan_spec (env : TokenEnv) (model : GoStr) (maxTokens : Int) :
    ∀ (lines : List GoStr) (cur : Int), cur ≤ maxTokens →
    ∃ k, k ≤ lines.length ∧
      cur + lineTokenSum env model (lines.take k) ≤ maxTokens ∧
      (truncateScan env model maxTokens lines cur = lines.take k ++ [truncationMarker] ∨
        (k = lines.length ∧ truncateScan env model maxTokens lines cur = lines)) := by
  intro lines
  induction lines with
  | nil =>
    intro cur h
    exact ⟨0, by simp, by simpa [lineTokenSum] using h, Or.inr ⟨rfl, rfl⟩⟩
  | cons line rest ih =>
    intro cur h
    by_cases hov : maxTokens < cur + countTokens env (line ++ ['\n']) model
    · refine ⟨0, by simp, by simpa [lineTokenSum] using h, Or.inl ?_⟩
      simp [truncateScan, if_pos hov]
    · push_neg at hov
      obtain ⟨k, hk, hsum, hres⟩ := ih (cur + countTokens env (line ++ ['\n']) model) hov
      refine ⟨k + 1, by simpa using hk, ?_, ?_⟩
      · simp only [List.take_succ_cons]
        have hexp : lineTokenSum env model (line :: List.take k rest) =
            countTokens env (line ++ ['\n']) model +
              lineTokenSum env model (List.take k rest) := rfl
        rw [hexp]
        omega
      · have hscan : truncateScan env model maxTokens (line :: rest) cur =
            line :: truncateScan env model maxTokens rest
              (cur + countTokens env (line ++ ['\n']) model) := by
          simp only [truncateScan]
          rw [if_neg (not_lt.mpr hov)]
        cases hres with
        | inl hres => exact Or.inl (by simp [hscan, hres])
        | inr hres =>
          exact Or.inr ⟨by simp [hres.1], by simp [hscan, hres.2]⟩

/-- C3 (amended): when the text is within budget, `TruncateToTokenLimit`
returns it unchanged.  Otherwise the result is built from a line-boundary
prefix of the text whose cumulative per-line token count is at most
`maxTokens`, with the truncation marker appended when lines were dropped;
but the marker itself is not counted against the budget (and per-line
counts can undercount the joined whole), so `CountTokens` of the final
result is not in general ≤ `maxTokens`. -/
theorem C3_truncate_to_token_limit_amended :
    (∀ (env : TokenEnv) (text : GoStr) (maxTokens : Int) (model : GoStr),
      countTokens env text model ≤ maxTokens →
      truncateToTokenLimit env text maxTokens model = text) ∧
    (∀ (env : TokenEnv) (text : GoStr) (maxTokens : Int) (model : GoStr),
      maxTokens < countTokens env text model → 0 ≤ maxTokens →
      ∃ k, k ≤ (goSplitLines text).length ∧
        lineTokenSum env model ((goSplitLines text).take k) ≤ maxTokens ∧
        (truncateToTokenLimit env text maxTokens model =
            goJoinLines ((goSplitLines text).take k ++ [truncationMarker]) ∨
          (k = (goSplitLines text).length ∧
            truncateToTokenLimit env text maxTokens model = text))) := by
  constructor
  · intro env text maxTokens model h
    unfold truncateToTokenLimit
    rw [if_pos h]
  · intro env text maxTokens model hover hnn
    obtain ⟨k, hk, hsum, hres⟩ := truncateScan_spec env model maxTokens (goSplitLines text) 0 hnn
    refine ⟨k, hk, by simpa using hsum, ?_⟩
    unfold truncateToTokenLimit
    rw [if_neg (by omega)]
    cases hres with
    | inl h => exact Or.inl (by rw [h])
    | inr h =>
      refine Or.inr ⟨h.1, ?_⟩
      rw [h.2]
      exact goJoin_goSplitLines text

/-- C3 witness: within budget the text survives unchanged; over budget
the loop invariant holds at a concrete input. -/
theorem C3_truncate_to_token_limit_witness :
    truncateToTokenLimit envCharFallback (gs "ab") 5 (gs "m") = gs "ab" ∧
    (∃ k, k ≤ (goSplitLines (gs "aa\naa\naa")).length ∧
      lineTokenSum envCharFallback (gs "m") ((goSplitLines (gs "aa\naa\naa")).take k) ≤ 1 ∧
      (truncateToTokenLimit envCharFallback (gs "aa\naa\naa") 1 (gs "m") =
          goJoinLines ((goSplitLines (gs "aa\naa\naa")).take k ++ [truncationMarker]) ∨
        (k = (goSplitLines (gs "aa\naa\naa")).length ∧
          truncateToTokenLimit envCharFallback (gs "aa\naa\naa") 1 (gs "m") =
            gs "aa\naa\naa"))) :=
  ⟨C3_truncate_to_token_limit_amended.1 envCharFallback (gs "ab") 5 (gs "m") (by decide),
    C3_truncate_to_token_limit_amended.2 envCharFallback (gs "aa\naa\naa") 1 (gs "m")
      (by decide) (by decide)⟩

/-- C3 counterexample: a 72-character text whose first line alone
overflows the budget of 5 is truncated to just the marker, and
`CountTokens` of that result is 9 > 5 — the claim's bound
"`CountTokens` of the result is ≤ `maxTokens`" is false of the code. -/
theorem C3_truncate_to_token_limit_counterexample :
    truncateToTokenLimit envCharFallback (List.replicate 70 'a' ++ gs "\nb") 5 (gs "m") =
      truncationMarker ∧
    countTokens envCharFallback
        (truncateToTokenLimit envCharFallback (List.replicate 70 'a' ++ gs "\nb") 5 (gs "m"))
        (gs "m") = 9 ∧
    ¬ ((9 : Int) ≤ 5) := by
  refine ⟨by decide, by decide, by decide⟩

section MessageModel

/-!
## pkg/ai/ai.go — data model and `FormatCommitMessage`
-/

/-- `config.CommitConvention` from pkg/config/config.go. -/
inductive CommitConvention where
  | noConvention
  | conventionalCommits
  | customConvention
deriving DecidableEq

/-- The configuration fields read by the verified message pipeline
(pkg/config/config.go `Config`, restricted to `Commit.*`). -/
structure Config where
  convention : CommitConvention
  includeBody : Bool
  maxLength : Int
  maxBodyLength : Int
deriving DecidableEq

/-- `CommitMessage` from pkg/ai/ai.go (`Type` is a Lean keyword, so the
field is spelled `type'`). -/
structure CommitMessage where
  type' : GoStr
  scope : GoStr
  subject : GoStr
  body : GoStr
deriving DecidableEq

/-- The subject line written by `FormatCommitMessage` before any body. -/
def formatSubjectLine (msg : CommitMessage) (cfg : Config) : GoStr :=
  match cfg.convention with
  | .conventionalCommits =>
    if msg.scope ≠ [] then
      msg.type' ++ gs "(" ++ msg.scope ++ gs "): " ++ msg.subject
    else
      msg.type' ++ gs ": " ++ msg.subject
  | .customConvention => msg.subject
  | .noConvention => msg.subject

/-- One iteration of `FormatCommitMessage`'s body loop: the trimmed line,
skipped (`none`) when empty, prefixed with `"- "` unless already carrying
a `"- "` or `"* "` bullet. -/
def bulletLine (line : GoStr) : Option GoStr :=
  let line := goTrimSpace line
  if line = [] then none
  else if goStartsWith line (gs "- ") ∨ goStartsWith line (gs "* ") then some line
  else some (gs "- " ++ line)

/-- The body lines emitted by `FormatCommitMessage`'s loop, in order. -/
def formatBodyLines (body : GoStr) : List GoStr :=
  (goSplitLines (goTrimSpace body)).filterMap bulletLine

/-- `FormatCommitMessage` from pkg/ai/ai.go: the subject line per
convention; when a body is configured and non-empty, `"\n\n"` then each
bullet line followed by `"\n"`, with one trailing `"\n"` removed at the
end (Go `strings.TrimSuffix(resultStr, "\n")`). -/
def formatCommitMessage (msg : CommitMessage) (cfg : Config) : GoStr :=
  let subjectPart := formatSubjectLine msg cfg
  if cfg.includeBody ∧ msg.body ≠ [] then
    let rendered :=
      subjectPart ++ gs "\n\n" ++ ((formatBodyLines msg.body).map (· ++ ['\n'])).flatten
    if goEndsWith rendered (gs "\n") then rendered.dropLast else rendered
  else subjectPart

/-- Appending `"\n"` to each piece and concatenating is joining with
newlines plus one trailing newline. -/
theorem join_map_append_newline (ls : List GoStr) (h : ls ≠ []) :
    (ls.map (· ++ ['\n'])).flatten = goJoinLines ls ++ ['\n'] := by
  induction ls with
  | nil => exact absurd rfl h
  | cons l rest ih =>
    cases rest with
    | nil => simp [goJoinLines]
    | cons l₂ rest' =>
      simp only [List.map_cons, List.flatten_cons] at ih ⊢
      rw [ih (by simp), goJoinLines]
      simp

end MessageModel

/-- A string whose head is not whitespace trims to a nonempty string. -/
theorem goTrimSpace_cons_not_space (c : Char) (l : GoStr) (hc : goIsSpace c = false) :
    goTrimSpace (c :: l) ≠ [] := by
  unfold goTrimSpace
  rw [List.dropWhile_cons, if_neg (by simp [hc])]
  simp only [goTrimRight]
  rw [if_neg (by simp [hc])]
  simp

/-- A non-blank body produces at least one bullet line. -/
theorem formatBodyLines_ne_nil (body : GoStr) (h : goTrimSpace body ≠ []) :
    formatBodyLines body ≠ [] := by
  obtain ⟨c, cs, ht, hc⟩ := goTrimSpace_head body h
  unfold formatBodyLines
  rw [ht]
  have hcn : c ≠ '\n' := by
    intro hcc
    subst hcc
    simp [goIsSpace] at hc
  simp only [goSplitLines, if_neg hcn]
  cases hs : goSplitLines cs with
  | nil => exact absurd hs (goSplitLines_ne_nil cs)
  | cons l ls =>
    have hne := goTrimSpace_cons_not_space c l hc
    have hsome : ∃ b, bulletLine (c :: l) = some b := by
      simp only [bulletLine]
      rw [if_neg hne]
      split
      · exact ⟨_, rfl⟩
      · exact ⟨_, rfl⟩
    obtain ⟨b, hb⟩ := hsome
    simp [List.filterMap_cons, hb]

/-- Every emitted body line is non-empty and bullet-prefixed. -/
theorem formatBodyLines_mem (body : GoStr) :
    ∀ l ∈ formatBodyLines body,
      l ≠ [] ∧ (goStartsWith l (gs "- ") ∨ goStartsWith l (gs "* ")) := by
  intro l hl
  unfold formatBodyLines at hl
  obtain ⟨orig, _, horig⟩ := List.mem_filterMap.mp hl
  simp only [bulletLine] at horig
  by_cases h0 : goTrimSpace orig = []
  · rw [if_pos h0] at horig
    cases horig
  · rw [if_neg h0] at horig
    split at horig
    · rename_i hbul
      cases horig
      exact ⟨h0, hbul⟩
    · cases horig
      refine ⟨by simp [gs], Or.inl ?_⟩
      rw [goStartsWith, List.isPrefixOf_iff_prefix]
      exact List.prefix_append _ _

/-- C9 (amended): when a body is configured and the body is non-blank
(its trimmed form is non-empty), `FormatCommitMessage` renders the
subject part, exactly one blank line, then the newline-joined bullet
lines, each of which is non-empty and starts with `"- "` or `"* "`
(a `"- "` bullet being added to any line lacking one). -/
theorem C9_format_body_amended (msg : CommitMessage) (cfg : Config)
    (hb : cfg.includeBody = true) (hne : goTrimSpace msg.body ≠ []) :
    formatCommitMessage msg cfg =
      formatSubjectLine msg cfg ++ gs "\n\n" ++ goJoinLines (formatBodyLines msg.body) ∧
    formatBodyLines msg.body ≠ [] ∧
    ∀ l ∈ formatBodyLines msg.body,
      l ≠ [] ∧ (goStartsWith l (gs "- ") ∨ goStartsWith l (gs "* ")) := by
  have hblines := formatBodyLines_ne_nil msg.body hne
  have hbody_ne : msg.body ≠ [] := by
    intro h0
    apply hne
    rw [h0]
    rfl
  refine ⟨?_, hblines, formatBodyLines_mem msg.body⟩
  unfold formatCommitMessage
  rw [if_pos ⟨by simp [hb], hbody_ne⟩]
  rw [join_map_append_newline _ hblines]
  have hend : goEndsWith
      (formatSubjectLine msg cfg ++ gs "\n\n" ++
        (goJoinLines (formatBodyLines msg.body) ++ ['\n'])) (gs "\n") = true := by
    rw [goEndsWith, List.isSuffixOf_iff_suffix]
    exact ⟨formatSubjectLine msg cfg ++ gs "\n\n" ++ goJoinLines (formatBodyLines msg.body),
      by simp [gs]⟩
  rw [if_pos hend, ← List.append_assoc, List.dropLast_concat]

/-- C9 witness: a concrete two-line body (one line already bulleted, one
not) renders as a blank-line-separated bulleted body. -/
theorem C9_format_body_witness :
    formatCommitMessage ⟨gs "feat", [], gs "add x", gs "one\n- two"⟩
        ⟨.conventionalCommits, true, 72, 500⟩ =
      gs "feat: add x" ++ gs "\n\n" ++ gs "- one\n- two" := by
  have h := (C9_format_body_amended ⟨gs "feat", [], gs "add x", gs "one\n- two"⟩
    ⟨.conventionalCommits, true, 72, 500⟩ rfl (by decide)).1
  rw [h]
  decide

/-- C9 counterexample: a whitespace-only body is non-empty as a string,
yet the rendered message contains no blank line at all (the body loop
emits nothing and the trailing-newline trim leaves a dangling `"\n"`):
the claim as stated, with "non-empty" read literally, is false. -/
theorem C9_format_body_counterexample :
    (gs " " : GoStr) ≠ [] ∧
    formatCommitMessage ⟨gs "chore", [], gs "x", gs " "⟩
        ⟨.conventionalCommits, true, 72, 500⟩ = gs "chore: x" ++ ['\n'] ∧
    goContains
      (formatCommitMessage ⟨gs "chore", [], gs "x", gs " "⟩
        ⟨.conventionalCommits, true, 72, 500⟩) (gs "\n\n") = false := by
  refine ⟨by decide, by decide, by decide⟩

section Parsing

/-!
## pkg/ai/ai.go — response parsing
-/

/-- The closing-brace scan of `extractJSON`: relative position of the
brace that brings the nesting depth back to zero, if any. -/
def braceEnd : GoStr → Nat → Option Nat
  | [], _ => none
  | c :: rest, depth =>
    if c = '{' then (braceEnd rest (depth + 1)).map (· + 1)
    else if c = '}' then
      if depth = 1 then some 0 else (braceEnd rest (depth - 1)).map (· + 1)
    else (braceEnd rest depth).map (· + 1)

/-- `extractJSON` from pkg/ai/ai.go: the first balanced brace-delimited
block of the text, or `""` when there is none. -/
def extractJSON (text : GoStr) : GoStr :=
  match text.findIdx? (· = '{') with
  | none => []
  | some start =>
    match braceEnd (text.drop (start + 1)) 1 with
    | none => []
    | some j => (text.drop start).take (j + 2)

/-- Without an opening brace there is nothing to extract. -/
theorem extractJSON_no_brace (text : GoStr) (h : '{' ∉ text) : extractJSON text = [] := by
  unfold extractJSON
  have hnone : text.findIdx? (· = '{') = none := by
    rw [List.findIdx?_eq_none_iff]
    intro x hx
    simp only [decide_eq_false_iff_not]
    intro hxeq
    exact h (hxeq ▸ hx)
  rw [hnone]

/-- Scan of an escape-free JSON string after its opening quote: the
content and the remainder after the closing quote. -/
def jsonStrAux : GoStr → GoStr → Option (GoStr × GoStr)
  | [], _ => none
  | c :: rest, acc =>
    if c = '"' then some (acc.reverse, rest)
    else if c = '\\' then none
    else jsonStrAux rest (c :: acc)

/-- JSON insignificant whitespace (space, tab, newline, carriage return). -/
def jsonSkipWs (s : GoStr) : GoStr := s.dropWhile goIsSpace

/-- Member assignment of Go `encoding/json`: keys are matched to the
struct's json tags case-insensitively, unknown keys are ignored, a later
duplicate overwrites. -/
def jsonAssign (m : CommitMessage) (key value : GoStr) : CommitMessage :=
  if goToLower key = gs "type" then { m with type' := value }
  else if goToLower key = gs "scope" then { m with scope := value }
  else if goToLower key = gs "subject" then { m with subject := value }
  else if goToLower key = gs "body" then { m with body := value }
  else m

/-- Member list of a JSON object: `"key" : "value"` pairs separated by
commas, closed by `}` followed only by whitespace. -/
def jsonMembers : Nat → GoStr → CommitMessage → Option CommitMessage
  | 0, _, _ => none
  | fuel + 1, s, m =>
    match jsonSkipWs s with
    | '"' :: rest =>
      match jsonStrAux rest [] with
      | none => none
      | some (key, rest) =>
        match jsonSkipWs rest with
        | ':' :: rest =>
          match jsonSkipWs rest with
          | '"' :: rest =>
            match jsonStrAux rest [] with
            | none => none
            | some (value, rest) =>
              match jsonSkipWs rest with
              | ',' :: rest => jsonMembers fuel rest (jsonAssign m key value)
              | '}' :: rest =>
                if jsonSkipWs rest = [] then some (jsonAssign m key value) else none
              | _ => none
          | _ => none
        | _ => none
    | _ => none

/-- Modelled from the Go standard library: `encoding/json.Unmarshal` into
the `CommitMessage` struct, restricted to the JSON fragment exercised in
this development — a single top-level object whose members are
escape-free string keys and string values; any input outside this
fragment is a decode error (`none`), as non-JSON inputs are for the real
decoder.  Absent fields keep the struct's zero value `""`. -/
def jsonDecodeCM (s : GoStr) : Option CommitMessage :=
  match jsonSkipWs s with
  | [] => none
  | c :: rest =>
    if c = '{' then
      match jsonSkipWs rest with
      | '}' :: rest' => if jsonSkipWs rest' = [] then some ⟨[], [], [], []⟩ else none
      | _ => jsonMembers (rest.length + 1) rest ⟨[], [], [], []⟩
    else none

/-- A text whose first non-whitespace character is not `{` never decodes. -/
theorem jsonDecodeCM_cons_not_brace (c : Char) (rest : GoStr)
    (hws : goIsSpace c = false) (hb : c ≠ '{') : jsonDecodeCM (c :: rest) = none := by
  unfold jsonDecodeCM jsonSkipWs
  rw [List.dropWhile_cons, if_neg (by simp [hws])]
  exact if_neg hb

/-- The `[SUBJECT]` marker searched for by `parseTextCommitMessage`. -/
def subjectMarker : GoStr := gs "[SUBJECT]"

/-- The `[BODY]` marker searched for by `parseTextCommitMessage`. -/
def bodyMarker : GoStr := gs "[BODY]"

/-- The marker-scanning loop of `parseTextCommitMessage`: the indices of
the last lines containing `[SUBJECT]` resp. `[BODY]` (a line with both
only counts as a subject marker), `-1` when absent. -/
def findMarkersAux : List GoStr → Int → Int × Int → Int × Int
  | [], _, acc => acc
  | l :: rest, i, acc =>
    if goContains l subjectMarker then findMarkersAux rest (i + 1) (i, acc.2)
    else if goContains l bodyMarker then findMarkersAux rest (i + 1) (acc.1, i)
    else findMarkersAux rest (i + 1) acc

/-- Marker indices over all lines, starting from `(-1, -1)`. -/
def findMarkers (lines : List GoStr) : Int × Int := findMarkersAux lines 0 (-1, -1)

/-- When no line contains a marker, both indices stay `-1`. -/
theorem findMarkersAux_no_match (lines : List GoStr)
    (h : ∀ l ∈ lines,
      goContains l subjectMarker = false ∧ goContains l bodyMarker = false) :
    ∀ (i : Int) (acc : Int × Int), findMarkersAux lines i acc = acc := by
  induction lines with
  | nil => intro i acc; rfl
  | cons l rest ih =>
    intro i acc
    have hl := h l (List.mem_cons_self l rest)
    have hrest : ∀ l' ∈ rest,
        goContains l' subjectMarker = false ∧ goContains l' bodyMarker = false :=
      fun l' hl' => h l' (List.mem_cons_of_mem l hl')
    simp only [findMarkersAux, hl.1, hl.2, Bool.false_eq_true, if_false]
    exact ih hrest (i + 1) acc

/-- Go `strings.ReplaceAll(s, pat, rep)` (`goReplaceAll pat rep s`);
an empty pattern is treated as the identity (never the case here). -/
def goReplaceAll (pat rep : GoStr) : GoStr → GoStr
  | [] => []
  | c :: rest =>
    if pat ≠ [] ∧ pat.isPrefixOf (c :: rest) then
      rep ++ goReplaceAll pat rep (rest.drop (pat.length - 1))
    else c :: goReplaceAll pat rep rest
termination_by s => s.length
decreasing_by
  · simp only [List.length_cons, List.length_drop]
    omega
  · simp only [List.length_cons]
    omega

/-- The `type(scope)` split applied to the part before the first colon:
an embedded `(`..`)` pair (the `(` not first) yields type and scope,
otherwise the whole segment is the type. -/
def parseTypeScope (typeScope : GoStr) : GoStr × GoStr :=
  let scopeStart := goIndexOfChar typeScope '('
  if 0 < scopeStart then
    let scopeEnd := goIndexOfChar typeScope ')'
    if scopeStart < scopeEnd then
      (typeScope.take scopeStart.toNat,
        (typeScope.drop (scopeStart.toNat + 1)).take
          (scopeEnd.toNat - scopeStart.toNat - 1))
    else (typeScope, [])
  else (typeScope, [])

/-- Subject-line split on the first colon (used for the `[SUBJECT]`-tag
path): `(type, scope, subject)`, with an empty type when there is no
colon after position zero. -/
def parseColonSubject (subject : GoStr) : GoStr × GoStr × GoStr :=
  let idx := goIndexOfChar subject ':'
  if 0 < idx then
    let ts := parseTypeScope (subject.take idx.toNat)
    (ts.1, ts.2, goTrimSpace (subject.drop (idx.toNat + 1)))
  else ([], [], subject)

/-- First-line parsing when no `[SUBJECT]` tag is present: a leading
`": "` yields the default type `"chore"`; otherwise split on the first
colon; with no colon the whole line is the subject with type `"chore"`. -/
def parseFirstLine (line : GoStr) : GoStr × GoStr × GoStr :=
  let subject := goTrimSpace line
  if goStartsWith subject (gs ": ") then
    (gs "chore", [], goTrimSpace (subject.drop 2))
  else
    let idx := goIndexOfChar subject ':'
    if 0 < idx then
      let ts := parseTypeScope (subject.take idx.toNat)
      (ts.1, ts.2, goTrimSpace (subject.drop (idx.toNat + 1)))
    else (gs "chore", [], subject)

/-- The blank-line body scan of `parseTextCommitMessage`: after the first
blank line, collect the non-blank lines. -/
def bodyScanAfterBlank : List GoStr → Bool → List GoStr
  | [], _ => []
  | l :: rest, false =>
    if goTrimSpace l = [] then bodyScanAfterBlank rest true
    else bodyScanAfterBlank rest false
  | l :: rest, true =>
    if goTrimSpace l = [] then bodyScanAfterBlank rest true
    else l :: bodyScanAfterBlank rest true

/-- Body-line selection of `parseTextCommitMessage`: after a `[BODY]` tag
when present, otherwise the blank-line scan over the tail, otherwise — no
blank line but more than two lines — everything after the subject line
(and after one immediately-blank line). -/
def extractBodyLines (lines : List GoStr) (bodyIdx : Int) : List GoStr :=
  if 0 ≤ bodyIdx ∧ bodyIdx < (lines.length : Int) - 1 then
    (lines.drop (bodyIdx.toNat + 1)).dropWhile (fun l => goTrimSpace l = [])
  else if 1 < lines.length then
    let tail := lines.drop 1
    let foundEmpty := tail.any (fun l => goTrimSpace l = [])
    let scanned := bodyScanAfterBlank tail false
    if ¬ foundEmpty ∧ 2 < lines.length then
      if goTrimSpace (goLineAt lines 1) = [] then lines.drop 2 else lines.drop 1
    else scanned
  else []

/-- The body clean-up pass of `parseTextCommitMessage`: placeholder
bodies are dropped, code fences and `[BODY]` markers removed, a leading
`Body:`/`body:` label stripped, a `"\n\n"` separation enforced, and the
result trimmed. -/
def cleanupBody (body : GoStr) : GoStr :=
  let b :=
    if body ≠ [] then
      let b :=
        if goContains (goToLower body) (gs "<descriptive body") ∨
            goContains (goToLower body) (gs "explanat") ∨
            goContains (goToLower body) (gs "<commit message>") ∨
            goContains (goToLower body) (gs "<optional body>") then []
        else body
      let b := goReplaceAll (gs "```") [] b
      let b := goReplaceAll (gs "[BODY]") [] b
      let b := goTrimLeading (goTrimSpace b) (gs "Body:")
      let b := goTrimLeading (goTrimSpace b) (gs "body:")
      if ¬ goContains b (gs "\n\n") then gs "\n\n" ++ b else b
    else body
  goTrimSpace b

/-- `parseTextCommitMessage` from pkg/ai/ai.go. -/
def parseTextCommitMessage (text : GoStr) : CommitMessage :=
  let lines := goSplitLines text
  let markers := findMarkers lines
  let tss :=
    if 0 ≤ markers.1 ∧ markers.1 < (lines.length : Int) - 1 then
      parseColonSubject (goTrimSpace
        (goReplaceAll subjectMarker [] (goLineAt lines (markers.1.toNat + 1))))
    else if 0 < lines.length then
      parseFirstLine (goLineAt lines 0)
    else ([], [], [])
  { type' := if tss.1 = [] then gs "chore" else tss.1
    scope := tss.2.1
    subject := tss.2.2
    body := cleanupBody (goJoinLines (extractBodyLines lines markers.2)) }

/-- The error payload of `ParseCommitMessageJSON` (the Go code wraps the
JSON error; only its presence matters here). -/
def parseErrorMessage : GoStr := gs "failed to parse response as JSON"

/-- `ParseCommitMessageJSON` from pkg/ai/ai.go: extracted-JSON decode,
then whole-response decode, then heuristic text parsing; an error is
returned only when the text parse yields neither subject nor type. -/
def parseCommitMessageJSON (response : GoStr) : CommitMessage × Option GoStr :=
  let jsonStr := extractJSON response
  match (if jsonStr ≠ [] then jsonDecodeCM jsonStr else none) with
  | some msg => (msg, none)
  | none =>
    match jsonDecodeCM response with
    | some msg => (msg, none)
    | none =>
      let extractedMsg := parseTextCommitMessage response
      if extractedMsg.subject = [] ∧ extractedMsg.type' = [] then
        (extractedMsg, some parseErrorMessage)
      else (extractedMsg, none)

end Parsing

/-- The text parser always assigns a non-empty type (`"chore"` at worst). -/
theorem parseText_type_ne_nil (text : GoStr) :
    (parseTextCommitMessage text).type' ≠ [] := by
  simp only [parseTextCommitMessage]
  repeat' split
  all_goals first
    | decide
    | (rename_i h; exact h)

/-- C8 (amended): `ParseCommitMessageJSON` returns a nil error for every
input — its error branch is unreachable because the text-parsing fallback
always assigns a non-empty type.  (A successful JSON decode, however, may
yield a message whose type is empty; see the counterexample.) -/
theorem C8_parse_json_amended :
    (∀ response : GoStr, (parseCommitMessageJSON response).2 = none) ∧
    (∀ text : GoStr, (parseTextCommitMessage text).type' ≠ []) := by
  refine ⟨?_, parseText_type_ne_nil⟩
  intro response
  cases h1 : (if extractJSON response ≠ [] then jsonDecodeCM (extractJSON response)
      else none) with
  | some m => simp [parseCommitMessageJSON, h1]
  | none =>
    cases h2 : jsonDecodeCM response with
    | some m => simp [parseCommitMessageJSON, h1, h2]
    | none =>
      simp only [parseCommitMessageJSON, h1, h2]
      rw [if_neg (fun hc => parseText_type_ne_nil response hc.2)]

/-- A JSON response carrying only a subject field. -/
def jsonProbe : GoStr := gs "\x7b\"subject\":\"hi\"\x7d"

/-- C8 counterexample: the JSON response `{"subject":"hi"}` decodes
successfully, so `ParseCommitMessageJSON` returns it with a nil error —
but its type field is empty: the claim that the returned message always
has a non-empty type is false of the code. -/
theorem C8_parse_json_counterexample :
    (parseCommitMessageJSON jsonProbe).1.type' = [] ∧
    (parseCommitMessageJSON jsonProbe).1.subject = gs "hi" ∧
    (parseCommitMessageJSON jsonProbe).2 = none := by
  refine ⟨by decide, by decide, by decide⟩

/-- C5 (confirmed): with no `[SUBJECT]`/`[BODY]` markers anywhere, a
first line that trims to `": " ++ r` is parsed by dropping the bare
colon: the type defaults to `"chore"` and the subject is `r` trimmed. -/
theorem C5_leading_colon_defaults_chore (text r : GoStr)
    (hmark : ∀ l ∈ goSplitLines text,
      goContains l subjectMarker = false ∧ goContains l bodyMarker = false)
    (hline : goTrimSpace (goLineAt (goSplitLines text) 0) = ':' :: ' ' :: r) :
    (parseTextCommitMessage text).type' = gs "chore" ∧
    (parseTextCommitMessage text).subject = goTrimSpace r := by
  have hM : findMarkers (goSplitLines text) = (-1, -1) :=
    findMarkersAux_no_match (goSplitLines text) hmark 0 (-1, -1)
  have hM1 : (findMarkers (goSplitLines text)).1 = -1 := by rw [hM]
  have hM2 : (findMarkers (goSplitLines text)).2 = -1 := by rw [hM]
  have hlen : 0 < (goSplitLines text).length :=
    List.length_pos.mpr (goSplitLines_ne_nil text)
  have hsw : goStartsWith (':' :: ' ' :: r) (gs ": ") = true := by
    rw [goStartsWith, List.isPrefixOf_iff_prefix]
    exact ⟨r, rfl⟩
  have hpf : parseFirstLine (goLineAt (goSplitLines text) 0) =
      (gs "chore", [], goTrimSpace r) := by
    simp only [parseFirstLine, hline]
    rw [if_pos hsw]
    simp
  simp only [parseTextCommitMessage, hM1, hpf]
  rw [if_neg (show ¬ (0 ≤ (-1 : Int) ∧
    (-1 : Int) < ((goSplitLines text).length : Int) - 1) by omega)]
  rw [if_pos hlen]
  constructor
  · simp [gs]
  · simp

/-- C5 witness: the raw output `": add feature"` parses to type
`"chore"`, subject `"add feature"`. -/
theorem C5_leading_colon_witness :
    (parseTextCommitMessage (gs ": add feature")).type' = gs "chore" ∧
    (parseTextCommitMessage (gs ": add feature")).subject = gs "add feature" := by
  have h := C5_leading_colon_defaults_chore (gs ": add feature") (gs "add feature")
    (by decide) (by decide)
  exact ⟨h.1, by rw [h.2]; decide⟩

section ValidationRepair

/-!
## pkg/ai/ai.go — `validateConventionalCommit`, `fixConventionalCommitIssues`,
`generateDefaultBody`, and the validate→repair→format tail of
`GenerateCommitMessage`.
-/

/-- The rule violated by a conventional-commit message, in the order the
checks appear in `validateConventionalCommit` (the Go code reports each
as a formatted error string; only the rule's identity matters here). -/
inductive ValidationIssue where
  | typeRequired
  | typeNotLowercase
  | typeNotAllowed
  | subjectRequired
  | subjectEndsWithPeriod
  | subjectStartsUppercase
  | subjectHasNewline
  | subjectTooGeneric
  | bodyRequired
  | bodyPlaceholder
  | bodyTooShort
  | bodyNotSeparated
  | bodyMetaCommentary
  | bodyFileList
  | scopeNotLowercase
  | scopeHasSpace
  | scopeSpecialChars
  | scopeTooGeneric
deriving DecidableEq

/-- The allowed conventional-commit types. -/
def allowedTypes : List GoStr :=
  [gs "feat", gs "fix", gs "docs", gs "style", gs "refactor", gs "perf",
    gs "test", gs "build", gs "ci", gs "chore", gs "revert"]

/-- The generic-subject deny list of `validateConventionalCommit`. -/
def genericSubjects : List GoStr :=
  [gs "update", gs "fix", gs "change", gs "modify", gs "add", gs "remove", gs "delete"]

/-- The special characters forbidden in a scope
(Go `strings.ContainsAny(msg.Scope, "!@#$%^&*()_+=\x7b\x7d[]|\\:;\"'<>,.?/~`")`). -/
def scopeSpecials : GoStr := gs "!@#$%^&*()_+=\x7b\x7d[]|\\:;\"\x27<>,.?/~`"

/-- `validateConventionalCommit` from pkg/ai/ai.go.  `unicode.IsUpper` /
`unicode.ToLower` are modelled on their ASCII fragment. -/
def validateConventionalCommit (msg : CommitMessage) (cfg : Config) :
    Option ValidationIssue :=
  if msg.type' = [] then some .typeRequired
  else if msg.type' ≠ goToLower msg.type' then some .typeNotLowercase
  else if msg.type' ∉ allowedTypes then some .typeNotAllowed
  else if msg.subject = [] then some .subjectRequired
  else if goEndsWith msg.subject (gs ".") then some .subjectEndsWithPeriod
  else if 0 < msg.subject.length ∧ (msg.subject.headD ' ').isUpper then
    some .subjectStartsUppercase
  else if goContains msg.subject (gs "\n") then some .subjectHasNewline
  else if goToLower msg.subject ∈ genericSubjects then some .subjectTooGeneric
  else if cfg.includeBody ∧ goTrimSpace msg.body = [] then some .bodyRequired
  else if cfg.includeBody ∧
      (goContains (goToLower (goTrimSpace msg.body)) (gs "<descriptive body") ∨
        goContains (goToLower (goTrimSpace msg.body)) (gs "<optional body>") ∨
        goContains (goToLower (goTrimSpace msg.body)) (gs "explanat") ∨
        goContains (goToLower (goTrimSpace msg.body)) (gs "<commit message>")) then
    some .bodyPlaceholder
  else if cfg.includeBody ∧ (goTrimSpace msg.body).length < 10 then some .bodyTooShort
  else if cfg.includeBody ∧ ¬ goContains msg.body (gs "\n\n") then some .bodyNotSeparated
  else if cfg.includeBody ∧
      (goContains (goToLower (goTrimSpace msg.body)) (gs "this code") ∨
        goContains (goToLower (goTrimSpace msg.body)) (gs "the changes") ∨
        goContains (goToLower (goTrimSpace msg.body)) (gs "this commit")) then
    some .bodyMetaCommentary
  else if cfg.includeBody ∧
      (goContains (goTrimSpace msg.body) (gs "file:") ∨
        goContains (goTrimSpace msg.body) (gs "files:")) then
    some .bodyFileList
  else if msg.scope ≠ [] ∧ msg.scope ≠ goToLower msg.scope then some .scopeNotLowercase
  else if msg.scope ≠ [] ∧ goContains msg.scope (gs " ") then some .scopeHasSpace
  else if msg.scope ≠ [] ∧ msg.scope.any (fun c => c ∈ scopeSpecials) then
    some .scopeSpecialChars
  else if msg.scope ≠ [] ∧ goToLower msg.scope ∈ genericSubjects then
    some .scopeTooGeneric
  else none

/-- The common-misspelling type corrections of `fixConventionalCommitIssues`. -/
def typeCorrections : List (GoStr × GoStr) :=
  [(gs "feature", gs "feat"), (gs "bugfix", gs "fix"), (gs "document", gs "docs"),
    (gs "documentation", gs "docs"), (gs "styling", gs "style"),
    (gs "refactoring", gs "refactor"), (gs "performance", gs "perf"),
    (gs "testing", gs "test"), (gs "tests", gs "test"), (gs "building", gs "build"),
    (gs "maintenance", gs "chore")]

/-- The generic subject/scope replacements of `fixConventionalCommitIssues`. -/
def genericSubjectFixes : List (GoStr × GoStr) :=
  [(gs "update", gs "improve"), (gs "change", gs "modify"), (gs "modify", gs "enhance"),
    (gs "add", gs "implement"), (gs "remove", gs "delete"), (gs "delete", gs "remove"),
    (gs "fix", gs "resolve")]

/-- The meta-commentary phrases stripped from a body's first line. -/
def removePhrases : List GoStr :=
  [gs "this code", gs "the changes", gs "this commit", gs "the code", gs "the file",
    gs "the files", gs "the changes made", gs "the changes include",
    gs "the changes made to"]

/-- First-match phrase stripping: the phrase is matched against the
lowercased line, but stripped from the original line (as in the Go code,
where `TrimPrefix` receives the lowercase phrase and the original line). -/
def stripMetaPhrase : List GoStr → GoStr → GoStr
  | [], l₀ => l₀
  | p :: ps, l₀ =>
    if goStartsWith (goToLower l₀) p then goTrimSpace (goTrimLeading l₀ p)
    else stripMetaPhrase ps l₀

/-- `fixConventionalCommitIssues` from pkg/ai/ai.go. -/
def fixConventionalCommitIssues (msg : CommitMessage) : CommitMessage :=
  let t := goToLower msg.type'
  let t :=
    match List.lookup t typeCorrections with
    | some corrected => corrected
    | none => t
  let subj :=
    if goEndsWith msg.subject (gs ".") then msg.subject.dropLast else msg.subject
  let subj :=
    if 0 < subj.length ∧ (subj.headD ' ').isUpper then
      match subj with
      | [] => []
      | c :: rest => c.toLower :: rest
    else subj
  let subj :=
    match List.lookup (goToLower subj) genericSubjectFixes with
    | some replacement => replacement
    | none => subj
  let body :=
    if msg.body ≠ [] then
      let bodyLines := goSplitLines msg.body
      let bodyLines :=
        match bodyLines with
        | [] => []
        | l₀ :: rest => stripMetaPhrase removePhrases l₀ :: rest
      let cleanedLines := bodyLines.filter (fun line =>
        !(goContains (goToLower line) (gs "file:") ||
          goContains (goToLower line) (gs "files:") ||
          goContains (goToLower line) (gs "changed files:")))
      let b := goTrimSpace (goJoinLines cleanedLines)
      if ¬ goContains b (gs "\n\n") then gs "\n\n" ++ b else b
    else msg.body
  let sc :=
    if msg.scope ≠ [] then
      let sc := goToLower msg.scope
      match List.lookup sc genericSubjectFixes with
      | some replacement => replacement
      | none => sc
    else msg.scope
  ⟨t, sc, subj, body⟩

/-- Go `filepath.Base` (restricted to plain relative/absolute file paths
without trailing slashes): the part after the last `/`. -/
def pathBase (p : GoStr) : GoStr :=
  if p = [] then gs "." else (p.reverse.takeWhile (· ≠ '/')).reverse

/-- Go `filepath.Ext`: the suffix from the final dot of the final path
element, empty when that element has no dot. -/
def pathExt (p : GoStr) : GoStr :=
  let base := (p.reverse.takeWhile (· ≠ '/')).reverse
  if '.' ∈ base then '.' :: (base.reverse.takeWhile (· ≠ '.')).reverse else []

/-- `generateDefaultBody` from pkg/ai/ai.go: a deterministic body from
the file list (single file → name and extension-derived phrasing;
several files → their count; none → a fixed default). -/
def generateDefaultBody (cfg : Config) (files : List GoStr) (changes : GoStr) : GoStr :=
  if files.length = 1 then
    let file := goLineAt files 0
    let fileExt := goTrimLeading (pathExt file) (gs ".")
    let fileName := pathBase file
    if fileExt ≠ [] then
      if fileExt = gs "go" then
        gs "Update " ++ fileName ++ gs " with improved Go code implementation"
      else if fileExt = gs "js" ∨ fileExt = gs "jsx" ∨ fileExt = gs "ts" ∨
          fileExt = gs "tsx" then
        gs "Enhance " ++ fileName ++ gs " with better JavaScript/TypeScript functionality"
      else if fileExt = gs "py" then
        gs "Update Python implementation in " ++ fileName
      else if fileExt = gs "md" ∨ fileExt = gs "markdown" then
        gs "Improve documentation in " ++ fileName
      else if fileExt = gs "css" ∨ fileExt = gs "scss" ∨ fileExt = gs "sass" then
        gs "Update styles in " ++ fileName
      else if fileExt = gs "html" then
        gs "Update HTML template in " ++ fileName
      else if fileExt = gs "json" ∨ fileExt = gs "yaml" ∨ fileExt = gs "yml" then
        gs "Update configuration in " ++ fileName
      else gs "Update " ++ fileName ++ gs " file"
    else gs "Update " ++ fileName
  else if 1 < files.length then
    gs "Update " ++ goItoa files.length ++ gs " files with necessary changes"
  else gs "Update code with necessary changes"

/-- Outcome of the validate→repair→revalidate block, with pass counters. -/
structure RepairOutcome where
  msg : CommitMessage
  repairs : Nat
  validations : Nat
deriving DecidableEq

/-- The conventional-commit validation/repair block of
`GenerateCommitMessage` (pkg/ai/ai.go lines 1170-1184): validate; on
failure repair once and re-validate once; if still invalid and a
mandated body is blank, inject the default body.  No further retry. -/
def repairConventional (msg : CommitMessage) (cfg : Config) (files : List GoStr)
    (changes : GoStr) : RepairOutcome :=
  match validateConventionalCommit msg cfg with
  | none => ⟨msg, 0, 1⟩
  | some _ =>
    let m₁ := fixConventionalCommitIssues msg
    match validateConventionalCommit m₁ cfg with
    | none => ⟨m₁, 1, 2⟩
    | some _ =>
      if cfg.includeBody ∧ (m₁.body = [] ∨ goTrimSpace m₁.body = []) then
        ⟨{ m₁ with body := generateDefaultBody cfg files changes }, 1, 2⟩
      else ⟨m₁, 1, 2⟩

/-- The tail of `GenerateCommitMessage` after parsing and length
enforcement: conventional-mode validation/repair, then
`FormatCommitMessage`; the formatted message is returned with a nil
error on every path. -/
def normalizeAndFormat (msg : CommitMessage) (cfg : Config) (files : List GoStr)
    (changes : GoStr) : GoStr × Option GoStr :=
  let m :=
    if cfg.convention = .conventionalCommits then
      (repairConventional msg cfg files changes).msg
    else msg
  (formatCommitMessage m cfg, none)

end ValidationRepair

/-- C4 (amended): on a validation failure under conventional mode, repair
runs exactly once and validation exactly twice (never again); the
outcome — valid or not — is formatted and returned with a nil error.
The still-invalid case is NOT surfaced to the caller as an error value. -/
theorem C4_repair_once_amended (msg : CommitMessage) (cfg : Config)
    (files : List GoStr) (changes : GoStr)
    (hconv : cfg.convention = .conventionalCommits)
    (hinv : validateConventionalCommit msg cfg ≠ none) :
    (repairConventional msg cfg files changes).repairs = 1 ∧
    (repairConventional msg cfg files changes).validations = 2 ∧
    normalizeAndFormat msg cfg files changes =
      (formatCommitMessage (repairConventional msg cfg files changes).msg cfg, none) := by
  cases hv : validateConventionalCommit msg cfg with
  | none => exact absurd hv hinv
  | some issue =>
    have hr : (repairConventional msg cfg files changes).repairs = 1 ∧
        (repairConventional msg cfg files changes).validations = 2 := by
      simp only [repairConventional, hv]
      cases validateConventionalCommit (fixConventionalCommitIssues msg) cfg with
      | none => exact ⟨rfl, rfl⟩
      | some _ =>
        refine ⟨?_, ?_⟩ <;> (repeat' split) <;> rfl
    exact ⟨hr.1, hr.2, by simp [normalizeAndFormat, hconv]⟩

/-- C4 witness: the invalid type `"wip"` triggers exactly one repair and
two validations, and the pipeline still returns `"wip: do stuff"` with a
nil error. -/
theorem C4_repair_once_witness :
    (repairConventional ⟨gs "wip", [], gs "do stuff", []⟩
      ⟨.conventionalCommits, false, 72, 500⟩ [] []).repairs = 1 ∧
    (repairConventional ⟨gs "wip", [], gs "do stuff", []⟩
      ⟨.conventionalCommits, false, 72, 500⟩ [] []).validations = 2 ∧
    normalizeAndFormat ⟨gs "wip", [], gs "do stuff", []⟩
      ⟨.conventionalCommits, false, 72, 500⟩ [] [] = (gs "wip: do stuff", none) := by
  have h := C4_repair_once_amended ⟨gs "wip", [], gs "do stuff", []⟩
    ⟨.conventionalCommits, false, 72, 500⟩ [] [] rfl (by decide)
  refine ⟨h.1, h.2.1, ?_⟩
  rw [h.2.2]
  decide

/-- C4 counterexample: the type `"wip"` is still invalid after the single
repair pass, yet the pipeline returns the formatted message with a nil
error — the claim that an unresolved validation failure "is surfaced to
the caller as an error value" is false of the code. -/
theorem C4_repair_surfacing_counterexample :
    validateConventionalCommit
        (fixConventionalCommitIssues ⟨gs "wip", [], gs "do stuff", []⟩)
        ⟨.conventionalCommits, false, 72, 500⟩ = some .typeNotAllowed ∧
    normalizeAndFormat ⟨gs "wip", [], gs "do stuff", []⟩
        ⟨.conventionalCommits, false, 72, 500⟩ [] [] = (gs "wip: do stuff", none) := by
  refine ⟨by decide, by decide⟩

section RoundTripLemmas

/-- Single-character containment is membership. -/
theorem goContains_singleton (s : GoStr) (c : Char) :
    goContains s [c] = true ↔ c ∈ s := by
  rw [goContains, decide_eq_true_iff]
  constructor
  · intro h
    exact (List.singleton_sublist).mp h.sublist
  · intro h
    obtain ⟨u, v, huv⟩ := List.append_of_mem h
    exact ⟨u, v, by rw [huv]; simp⟩

/-- An infix whose head does not occur in the front part of an append is
an infix of the back part. -/
theorem infix_cons_append_right (c : Char) (p a b : GoStr)
    (h : (c :: p) <:+: a ++ b) (hc : c ∉ a) : (c :: p) <:+: b := by
  obtain ⟨s, t, hst⟩ := h
  by_cases hlen : s.length < a.length
  · exfalso
    apply hc
    have hget : (s ++ (c :: (p ++ t))).get? s.length = some c := by
      rw [List.get?_append_right (le_refl s.length)]
      simp
    have hst' : s ++ (c :: (p ++ t)) = a ++ b := by simpa using hst
    rw [hst', List.get?_append hlen] at hget
    exact List.get?_mem hget
  · push_neg at hlen
    have hpre1 : a <+: a ++ b := ⟨b, rfl⟩
    have hpre2 : s <+: a ++ b := ⟨c :: (p ++ t), by simpa using hst⟩
    obtain ⟨s', rfl⟩ := List.prefix_of_prefix_length_le hpre1 hpre2 hlen
    refine ⟨s', t, ?_⟩
    have h2 : a ++ (s' ++ (c :: p) ++ t) = a ++ b := by
      simpa [List.append_assoc] using hst
    exact List.append_cancel_left h2

/-- `goTrimRight` never lengthens a string. -/
theorem goTrimRight_length_le (s : GoStr) : (goTrimRight s).length ≤ s.length := by
  induction s with
  | nil => simp [goTrimRight]
  | cons c rest ih =>
    simp only [goTrimRight]
    split
    · simp
    · simpa using ih

/-- A string fixed by `goTrimSpace` is fixed by both of its passes. -/
theorem goTrimSpace_eq_self_parts (s : GoStr) (h : goTrimSpace s = s) :
    s.dropWhile goIsSpace = s ∧ goTrimRight s = s := by
  have hsub : (s.dropWhile goIsSpace).Sublist s := List.dropWhile_sublist goIsSpace
  have hlen1 : (s.dropWhile goIsSpace).length ≤ s.length := hsub.length_le
  have hlen2 := goTrimRight_length_le (s.dropWhile goIsSpace)
  have hlen : (goTrimSpace s).length = s.length := by rw [h]
  rw [goTrimSpace] at hlen
  have hdw : s.dropWhile goIsSpace = s := hsub.eq_of_length (by omega)
  refine ⟨hdw, ?_⟩
  rw [goTrimSpace, hdw] at h
  exact h

/-- Appending in front of a right-trim-fixed nonempty string stays fixed. -/
theorem goTrimRight_append_right (A s : GoStr) (hs : goTrimRight s = s)
    (hne : s ≠ []) : goTrimRight (A ++ s) = A ++ s := by
  induction A with
  | nil => simpa using hs
  | cons c A' ih =>
    simp only [List.cons_append, goTrimRight]
    rw [if_neg (by simp [ih, hne])]
    simp only [List.append_eq]
    rw [ih]

/-- `findIdx?` misses a list free of the sought character. -/
theorem findIdx?_char_none (s : GoStr) (c : Char) (h : c ∉ s) :
    s.findIdx? (· = c) = none := by
  rw [List.findIdx?_eq_none_iff]
  intro x hx
  simp only [decide_eq_false_iff_not]
  intro hxeq
  exact h (hxeq ▸ hx)

/-- The first occurrence of a character sitting right after an
occurrence-free front part. -/
theorem findIdx?_char_first (pre : GoStr) (c : Char) (post : GoStr) (hpre : c ∉ pre) :
    (pre ++ c :: post).findIdx? (· = c) = some pre.length := by
  rw [List.findIdx?_append, findIdx?_char_none pre c hpre]
  simp [List.findIdx?_cons]

/-- Character facts about the eleven allowed commit types. -/
theorem allowedTypes_chars : ∀ t ∈ allowedTypes, ∀ c ∈ t,
    goIsSpace c = false ∧ c ≠ ':' ∧ c ≠ '(' ∧ c ≠ ')' ∧ c ≠ '{' ∧
      c ≠ '[' ∧ c ≠ '\n' := by decide

end RoundTripLemmas

/-- Trimming is the identity on a rendered subject line: its head is a
type character (non-whitespace) and it ends in the trim-fixed subject. -/
theorem goTrimSpace_subject_line (c₀ : Char) (T' mid U : GoStr)
    (hc₀ : goIsSpace c₀ = false) (hU : goTrimRight U = U ∧ U.dropWhile goIsSpace = U)
    (hUne : U ≠ []) :
    goTrimSpace ((c₀ :: T') ++ mid ++ U) = (c₀ :: T') ++ mid ++ U := by
  unfold goTrimSpace
  rw [List.cons_append, List.cons_append, List.dropWhile_cons, if_neg (by simp [hc₀])]
  have heq : c₀ :: (T' ++ mid ++ U) = (c₀ :: (T' ++ mid)) ++ U := by simp
  rw [heq, goTrimRight_append_right _ U hU.1 hUne]

/-- `parseFirstLine` inverts the scope-less rendering `T ++ ": " ++ U`. -/
theorem parseFirstLine_format_noscope (T U : GoStr) (hTne : T ≠ [])
    (hTchars : ∀ c ∈ T, goIsSpace c = false ∧ c ≠ ':' ∧ c ≠ '(')
    (hUtrim : goTrimSpace U = U) (hUne : U ≠ []) :
    parseFirstLine (T ++ ':' :: ' ' :: U) = (T, [], U) := by
  obtain ⟨c₀, T', rfl⟩ := List.exists_cons_of_ne_nil hTne
  have hc₀ := hTchars c₀ (by simp)
  have hUparts := goTrimSpace_eq_self_parts U hUtrim
  have htrim : goTrimSpace ((c₀ :: T') ++ ':' :: ' ' :: U) =
      (c₀ :: T') ++ ':' :: ' ' :: U := by
    have := goTrimSpace_subject_line c₀ T' [':', ' '] U hc₀.1 ⟨hUparts.2, hUparts.1⟩ hUne
    simpa using this
  have hsw : goStartsWith ((c₀ :: T') ++ ':' :: ' ' :: U) (gs ": ") = false := by
    rw [goStartsWith]
    rw [Bool.eq_false_iff]
    intro hb
    obtain ⟨t, ht⟩ := List.isPrefixOf_iff_prefix.mp hb
    have : ':' = c₀ := by
      have := congrArg (fun l => l.headD ' ') ht
      simpa [gs] using this
    exact hc₀.2.1 this.symm
  have hidx : goIndexOfChar ((c₀ :: T') ++ ':' :: ' ' :: U) ':' =
      ((c₀ :: T').length : Int) := by
    rw [goIndexOfChar,
      findIdx?_char_first (c₀ :: T') ':' (' ' :: U) (fun hmem => (hTchars _ hmem).2.1 rfl)]
  have hts : parseTypeScope (c₀ :: T') = (c₀ :: T', []) := by
    unfold parseTypeScope
    rw [goIndexOfChar, findIdx?_char_none _ '(' (fun hmem => (hTchars _ hmem).2.2 rfl)]
    norm_num
  have hdrop : ((c₀ :: T') ++ ':' :: ' ' :: U).drop ((c₀ :: T').length + 1) =
      ' ' :: U := by
    have heq : (c₀ :: T') ++ ':' :: ' ' :: U = ((c₀ :: T') ++ [':']) ++ ' ' :: U := by
      simp
    have hlen2 : (c₀ :: T').length + 1 = ((c₀ :: T') ++ [':']).length := by simp
    rw [heq, hlen2, List.drop_left]
  have htrimU : goTrimSpace (' ' :: U) = U := by
    unfold goTrimSpace
    rw [List.dropWhile_cons, if_pos (by simp [goIsSpace]), hUparts.1]
    rw [goTrimSpace] at hUtrim
    rw [hUparts.1] at hUtrim
    exact hUtrim
  simp only [parseFirstLine, htrim, hsw, hidx]
  rw [if_neg (by simp)]
  rw [if_pos (by exact_mod_cast T'.length.succ_pos)]
  simp only [Int.toNat_natCast, List.take_left, hts, hdrop, htrimU]

/-- A line starting with a non-colon character has no `": "` prefix. -/
theorem goStartsWith_colon_space_false (c₀ : Char) (rest : GoStr) (hc₀ : c₀ ≠ ':') :
    goStartsWith (c₀ :: rest) (gs ": ") = false := by
  rw [goStartsWith, Bool.eq_false_iff]
  intro hb
  obtain ⟨t, ht⟩ := List.isPrefixOf_iff_prefix.mp hb
  have hhd : ':' = c₀ := by
    have := congrArg (fun l => l.headD ' ') ht
    simpa [gs] using this
  exact hc₀ hhd.symm

/-- Trimming eats exactly the separating space in `" " ++ U` when `U` is
trim-fixed. -/
theorem goTrimSpace_space_cons (U : GoStr) (hUtrim : goTrimSpace U = U) :
    goTrimSpace (' ' :: U) = U := by
  have hUparts := goTrimSpace_eq_self_parts U hUtrim
  unfold goTrimSpace
  rw [List.dropWhile_cons, if_pos (by simp [goIsSpace]), hUparts.1]
  rw [goTrimSpace, hUparts.1] at hUtrim
  exact hUtrim

/-- `parseFirstLine` inverts the scoped rendering `T ++ "(" ++ S ++ "): " ++ U`. -/
theorem parseFirstLine_format_scope (T S U : GoStr) (hTne : T ≠ [])
    (hTchars : ∀ c ∈ T, goIsSpace c = false ∧ c ≠ ':' ∧ c ≠ '(' ∧ c ≠ ')')
    (hSchars : ∀ c ∈ S, c ≠ ':' ∧ c ≠ '(' ∧ c ≠ ')')
    (hUtrim : goTrimSpace U = U) (hUne : U ≠ []) :
    parseFirstLine (T ++ ['('] ++ S ++ [')', ':', ' '] ++ U) = (T, S, U) := by
  obtain ⟨c₀, T', rfl⟩ := List.exists_cons_of_ne_nil hTne
  have hc₀ := hTchars c₀ (by simp)
  have hUparts := goTrimSpace_eq_self_parts U hUtrim
  have hcolon_notin : ':' ∉ (c₀ :: T') ++ ['('] ++ S ++ [')'] := by
    intro hmem
    simp only [List.mem_append, List.mem_singleton] at hmem
    rcases hmem with ((h | h) | h) | h
    · exact (hTchars _ h).2.1 rfl
    · exact absurd h (by decide)
    · exact (hSchars _ h).1 rfl
    · exact absurd h (by decide)
  have hparen_notin : '(' ∉ c₀ :: T' := fun h => (hTchars _ h).2.2.1 rfl
  have hclose_notin : ')' ∉ (c₀ :: T') ++ ['('] ++ S := by
    intro hmem
    simp only [List.mem_append, List.mem_singleton] at hmem
    rcases hmem with (h | h) | h
    · exact (hTchars _ h).2.2.2 rfl
    · exact absurd h (by decide)
    · exact (hSchars _ h).2.2 rfl
  have htrim : goTrimSpace ((c₀ :: T') ++ ['('] ++ S ++ [')', ':', ' '] ++ U) =
      (c₀ :: T') ++ ['('] ++ S ++ [')', ':', ' '] ++ U := by
    have h₁ := goTrimSpace_subject_line c₀ (T' ++ ['('] ++ S ++ [')', ':', ' ']) [] U
      hc₀.1 ⟨hUparts.2, hUparts.1⟩ hUne
    simpa using h₁
  have hidx : goIndexOfChar ((c₀ :: T') ++ ['('] ++ S ++ [')', ':', ' '] ++ U) ':' =
      (((c₀ :: T') ++ ['('] ++ S ++ [')']).length : Int) := by
    have hshape : (c₀ :: T') ++ ['('] ++ S ++ [')', ':', ' '] ++ U =
        ((c₀ :: T') ++ ['('] ++ S ++ [')']) ++ ':' :: (' ' :: U) := by simp
    rw [goIndexOfChar, hshape, findIdx?_char_first _ ':' _ hcolon_notin]
  have hts : parseTypeScope ((c₀ :: T') ++ ['('] ++ S ++ [')']) = (c₀ :: T', S) := by
    unfold parseTypeScope
    have hshape₁ : (c₀ :: T') ++ ['('] ++ S ++ [')'] =
        (c₀ :: T') ++ '(' :: (S ++ [')']) := by simp
    have hidxp : goIndexOfChar ((c₀ :: T') ++ ['('] ++ S ++ [')']) '(' =
        ((c₀ :: T').length : Int) := by
      rw [goIndexOfChar, hshape₁, findIdx?_char_first _ '(' _ hparen_notin]
    have hshape₂ : (c₀ :: T') ++ ['('] ++ S ++ [')'] =
        ((c₀ :: T') ++ ['('] ++ S) ++ ')' :: [] := by simp
    have hidxc : goIndexOfChar ((c₀ :: T') ++ ['('] ++ S ++ [')']) ')' =
        (((c₀ :: T') ++ ['('] ++ S).length : Int) := by
      rw [goIndexOfChar, hshape₂, findIdx?_char_first _ ')' _ hclose_notin]
    rw [hidxp]
    rw [if_pos (by exact_mod_cast T'.length.succ_pos)]
    rw [hidxc]
    rw [if_pos (by push_cast; simp)]
    have htake : ((c₀ :: T') ++ ['('] ++ S ++ [')']).take
        (((c₀ :: T').length : Int)).toNat = c₀ :: T' := by
      have : (c₀ :: T') ++ ['('] ++ S ++ [')'] =
          (c₀ :: T') ++ (['('] ++ S ++ [')']) := by simp
      rw [this, Int.toNat_natCast, List.take_left]
    have hdropS : (((c₀ :: T') ++ ['('] ++ S ++ [')']).drop
          ((((c₀ :: T').length : Int)).toNat + 1)).take
          ((((c₀ :: T') ++ ['('] ++ S).length : Int).toNat -
            (((c₀ :: T').length : Int)).toNat - 1) = S := by
      have hshape₃ : (c₀ :: T') ++ ['('] ++ S ++ [')'] =
          ((c₀ :: T') ++ ['(']) ++ (S ++ [')']) := by simp
      have hlen : (((c₀ :: T').length : Int)).toNat + 1 =
          ((c₀ :: T') ++ ['(']).length := by simp
      rw [hshape₃, hlen, List.drop_left]
      have hlen₂ : ((((c₀ :: T') ++ ['('] ++ S).length : Int)).toNat -
          (((c₀ :: T').length : Int)).toNat - 1 = S.length := by
        simp only [Int.toNat_natCast, List.length_append, List.length_cons,
          List.length_nil]
        omega
      rw [hlen₂, List.take_left]
    rw [htake, hdropS]
  have hdrop : ((c₀ :: T') ++ ['('] ++ S ++ [')', ':', ' '] ++ U).drop
      (((c₀ :: T') ++ ['('] ++ S ++ [')']).length + 1) = ' ' :: U := by
    have hshape : (c₀ :: T') ++ ['('] ++ S ++ [')', ':', ' '] ++ U =
        (((c₀ :: T') ++ ['('] ++ S ++ [')']) ++ [':']) ++ ' ' :: U := by simp
    have hlen : ((c₀ :: T') ++ ['('] ++ S ++ [')']).length + 1 =
        (((c₀ :: T') ++ ['('] ++ S ++ [')']) ++ [':']).length := by
      simp only [List.length_append, List.length_cons, List.length_nil]
    rw [hshape, hlen, List.drop_left]
  have hsw : goStartsWith ((c₀ :: T') ++ ['('] ++ S ++ [')', ':', ' '] ++ U)
      (gs ": ") = false := by
    have hshape : (c₀ :: T') ++ ['('] ++ S ++ [')', ':', ' '] ++ U =
        c₀ :: (T' ++ ['('] ++ S ++ [')', ':', ' '] ++ U) := by simp
    rw [hshape]
    exact goStartsWith_colon_space_false c₀ _ hc₀.2.1
  simp only [parseFirstLine, htrim, hsw, hidx]
  rw [if_neg (by simp)]
  have hposF : (0 : Int) < (((c₀ :: T') ++ ['('] ++ S ++ [')']).length : Int) := by
    exact_mod_cast List.length_pos.mpr
      (by simp : ((c₀ :: T') ++ ['('] ++ S ++ [')']) ≠ [])
  rw [if_pos hposF]
  simp only [Int.toNat_natCast]
  have htakeF : ((c₀ :: T') ++ ['('] ++ S ++ [')', ':', ' '] ++ U).take
      ((c₀ :: T') ++ ['('] ++ S ++ [')']).length = (c₀ :: T') ++ ['('] ++ S ++ [')'] := by
    have hshape : (c₀ :: T') ++ ['('] ++ S ++ [')', ':', ' '] ++ U =
        ((c₀ :: T') ++ ['('] ++ S ++ [')']) ++ ':' :: (' ' :: U) := by simp
    rw [hshape, List.take_left]
  rw [htakeF, hts, hdrop, goTrimSpace_space_cons U hUtrim]

/-- Peeling one check off a validation chain that succeeded. -/
theorem ite_some_none_elim {α : Type} {c : Prop} [Decidable c] {a : α} {rest : Option α}
    (h : (if c then some a else rest) = none) : ¬ c ∧ rest = none := by
  by_cases hc : c
  · rw [if_pos hc] at h
    cases h
  · rw [if_neg hc] at h
    exact ⟨hc, h⟩


set_option maxHeartbeats 1600000 in
/-- C6 (amended): rendering a valid conventional `CommitMessage` with an
empty body via `FormatCommitMessage` and parsing the rendered string back
with `ParseCommitMessageJSON` returns exactly the original structured
fields (and no error), provided the subject is whitespace-trimmed and
free of `{` and of the `[SUBJECT]`/`[BODY]` markers, and the scope is
newline-free.  Without these side conditions the round trip can change
fields (see the counterexample). -/
theorem C6_roundtrip_amended (msg : CommitMessage) (cfg : Config)
    (hconv : cfg.convention = .conventionalCommits)
    (hvalid : validateConventionalCommit msg cfg = none)
    (hbody : msg.body = [])
    (hsubjtrim : goTrimSpace msg.subject = msg.subject)
    (hsubjbrace : '{' ∉ msg.subject)
    (hsubjmark : ¬ subjectMarker <:+: msg.subject ∧ ¬ bodyMarker <:+: msg.subject)
    (hscopenl : '\n' ∉ msg.scope) :
    parseCommitMessageJSON (formatCommitMessage msg cfg) = (msg, none) := by
  obtain ⟨T, S, U, B⟩ := msg
  simp only at hvalid hbody hsubjtrim hsubjbrace hsubjmark hscopenl
  subst hbody
  simp only [validateConventionalCommit] at hvalid
  obtain ⟨h1, hvalid⟩ := ite_some_none_elim hvalid
  obtain ⟨h2, hvalid⟩ := ite_some_none_elim hvalid
  obtain ⟨h3, hvalid⟩ := ite_some_none_elim hvalid
  obtain ⟨h4, hvalid⟩ := ite_some_none_elim hvalid
  obtain ⟨h5, hvalid⟩ := ite_some_none_elim hvalid
  obtain ⟨h6, hvalid⟩ := ite_some_none_elim hvalid
  obtain ⟨h7, hvalid⟩ := ite_some_none_elim hvalid
  obtain ⟨h8, hvalid⟩ := ite_some_none_elim hvalid
  obtain ⟨h9, hvalid⟩ := ite_some_none_elim hvalid
  obtain ⟨h10, hvalid⟩ := ite_some_none_elim hvalid
  obtain ⟨h11, hvalid⟩ := ite_some_none_elim hvalid
  obtain ⟨h12, hvalid⟩ := ite_some_none_elim hvalid
  obtain ⟨h13, hvalid⟩ := ite_some_none_elim hvalid
  obtain ⟨h14, hvalid⟩ := ite_some_none_elim hvalid
  obtain ⟨h15, hvalid⟩ := ite_some_none_elim hvalid
  obtain ⟨h16, hvalid⟩ := ite_some_none_elim hvalid
  obtain ⟨h17, hvalid⟩ := ite_some_none_elim hvalid
  obtain ⟨h18, hvalid⟩ := ite_some_none_elim hvalid
  clear hvalid
  have htmem : T ∈ allowedTypes := not_not.mp h3
  have hTne : T ≠ [] := h1
  have hTall := allowedTypes_chars T htmem
  have hUne : U ≠ [] := h4
  have hUnl : '\n' ∉ U := by
    intro hm
    apply h7
    have hg : gs "\n" = ['\n'] := rfl
    rw [hg]
    exact (goContains_singleton _ _).mpr hm
  have hsm : subjectMarker = '[' :: gs "SUBJECT]" := rfl
  have hbm : bodyMarker = '[' :: gs "BODY]" := rfl
  by_cases hS : S = []
  · subst hS
    -- rendered line
    have hfmt : formatCommitMessage ⟨T, [], U, []⟩ cfg = T ++ ':' :: ' ' :: U := by
      have hgsc : gs ": " = [':', ' '] := rfl
      simp only [formatCommitMessage, formatSubjectLine, hconv, hgsc]
      simp [List.append_assoc]
    set F := T ++ ':' :: ' ' :: U with hF
    have hbrace : '{' ∉ F := by
      intro hm
      rw [hF] at hm
      simp only [List.mem_append, List.mem_cons] at hm
      rcases hm with hm | hm | hm | hm
      · exact (hTall _ hm).2.2.2.2.1 rfl
      · exact absurd hm (by decide)
      · exact absurd hm (by decide)
      · exact hsubjbrace hm
    have hFnl : '\n' ∉ F := by
      intro hm
      rw [hF] at hm
      simp only [List.mem_append, List.mem_cons] at hm
      rcases hm with hm | hm | hm | hm
      · exact (hTall _ hm).2.2.2.2.2.2 rfl
      · exact absurd hm (by decide)
      · exact absurd hm (by decide)
      · exact hUnl hm
    have hbracket : '[' ∉ T ++ [':', ' '] := by
      intro hm
      simp only [List.mem_append, List.mem_cons] at hm
      rcases hm with hm | hm | hm
      · exact (hTall _ hm).2.2.2.2.2.1 rfl
      · exact absurd hm (by decide)
      · simp at hm
    have hshapeF : F = (T ++ [':', ' ']) ++ U := by rw [hF]; simp
    have hnm1 : goContains F subjectMarker = false := by
      rw [goContains]
      simp only [decide_eq_false_iff_not]
      intro hinf
      apply hsubjmark.1
      rw [hsm]
      rw [hshapeF, hsm] at hinf
      exact infix_cons_append_right '[' (gs "SUBJECT]") _ _ hinf hbracket
    have hnm2 : goContains F bodyMarker = false := by
      rw [goContains]
      simp only [decide_eq_false_iff_not]
      intro hinf
      apply hsubjmark.2
      rw [hbm]
      rw [hshapeF, hbm] at hinf
      exact infix_cons_append_right '[' (gs "BODY]") _ _ hinf hbracket
    have hsplit : goSplitLines F = [F] := goSplitLines_no_newline F hFnl
    have hMl : findMarkers [F] = (-1, -1) := by
      apply findMarkersAux_no_match
      intro l hl
      rw [List.mem_singleton] at hl
      subst hl
      exact ⟨hnm1, hnm2⟩
    have hjson1 : extractJSON F = [] := extractJSON_no_brace F hbrace
    obtain ⟨c₀, T', hTc⟩ := List.exists_cons_of_ne_nil hTne
    have hjson2 : jsonDecodeCM F = none := by
      have hc₀ := hTall c₀ (hTc ▸ List.mem_cons_self c₀ T')
      have hFc : F = c₀ :: (T' ++ ':' :: ' ' :: U) := by rw [hF, hTc]; rfl
      rw [hFc]
      exact jsonDecodeCM_cons_not_brace c₀ _ hc₀.1 (fun h => hc₀.2.2.2.2.1 h)
    have hpf : parseFirstLine F = (T, [], U) := by
      rw [hF]
      exact parseFirstLine_format_noscope T U hTne
        (fun c hc => ⟨(hTall c hc).1, (hTall c hc).2.1, (hTall c hc).2.2.1⟩)
        hsubjtrim hUne
    have htext : parseTextCommitMessage F = ⟨T, [], U, []⟩ := by
      have hM1 : (findMarkers (goSplitLines F)).1 = -1 := by rw [hsplit, hMl]
      have hM2 : (findMarkers (goSplitLines F)).2 = -1 := by rw [hsplit, hMl]
      have hlen1 : 0 < (goSplitLines F).length :=
        List.length_pos.mpr (goSplitLines_ne_nil F)
      have hpf' : parseFirstLine (goLineAt (goSplitLines F) 0) = (T, [], U) := by
        rw [hsplit]
        exact hpf
      simp only [parseTextCommitMessage, hM1, hM2, hpf']
      rw [if_neg (show ¬ (0 ≤ (-1 : Int) ∧
        (-1 : Int) < ((goSplitLines F).length : Int) - 1) by omega)]
      rw [if_pos hlen1]
      rw [hsplit]
      have hbl : extractBodyLines [F] (-1 : Int) = [] := by
        simp [extractBodyLines]
      rw [hbl]
      have hcb : cleanupBody (goJoinLines []) = [] := by decide
      simp [hTne, hcb]
    rw [hfmt]
    simp only [parseCommitMessageJSON, hjson1]
    simp only [ne_eq, not_true_eq_false, if_false, hjson2]
    rw [htext]
    rw [if_neg (by simp [hUne])]
  · -- scoped case
    have hspec : ∀ c ∈ S, c ∉ scopeSpecials := by
      intro c hc hcs
      exact h17 ⟨hS, List.any_eq_true.mpr ⟨c, hc, by simpa using hcs⟩⟩
    have hSchars : ∀ c ∈ S, c ≠ ':' ∧ c ≠ '(' ∧ c ≠ ')' := by
      intro c hc
      refine ⟨fun h => hspec c hc (h ▸ (by decide)), fun h => hspec c hc (h ▸ (by decide)),
        fun h => hspec c hc (h ▸ (by decide))⟩
    have hSbrace : '{' ∉ S := fun h => hspec _ h (by decide)
    have hSbracket : '[' ∉ S := fun h => hspec _ h (by decide)
    have hfmt : formatCommitMessage ⟨T, S, U, []⟩ cfg =
        T ++ ['('] ++ S ++ [')', ':', ' '] ++ U := by
      have hgso : gs "(" = ['('] := rfl
      have hgsc : gs "): " = [')', ':', ' '] := rfl
      simp only [formatCommitMessage, formatSubjectLine, hconv, hgso, hgsc]
      simp [hS]
    set F := T ++ ['('] ++ S ++ [')', ':', ' '] ++ U with hF
    have hbrace : '{' ∉ F := by
      intro hm
      rw [hF] at hm
      simp only [List.mem_append, List.mem_cons, List.mem_singleton] at hm
      rcases hm with (((hm | hm) | hm) | hm) | hm
      · exact (hTall _ hm).2.2.2.2.1 rfl
      · exact absurd hm (by decide)
      · exact hSbrace hm
      · exact absurd hm (by decide)
      · exact hsubjbrace hm
    have hFnl : '\n' ∉ F := by
      intro hm
      rw [hF] at hm
      simp only [List.mem_append, List.mem_cons, List.mem_singleton] at hm
      rcases hm with (((hm | hm) | hm) | hm) | hm
      · exact (hTall _ hm).2.2.2.2.2.2 rfl
      · exact absurd hm (by decide)
      · exact hscopenl hm
      · exact absurd hm (by decide)
      · exact hUnl hm
    have hbracket : '[' ∉ T ++ ['('] ++ S ++ [')', ':', ' '] := by
      intro hm
      simp only [List.mem_append, List.mem_cons, List.mem_singleton] at hm
      rcases hm with ((hm | hm) | hm) | hm
      · exact (hTall _ hm).2.2.2.2.2.1 rfl
      · exact absurd hm (by decide)
      · exact hSbracket hm
      · exact absurd hm (by decide)
    have hshapeF : F = (T ++ ['('] ++ S ++ [')', ':', ' ']) ++ U := by rw [hF]
    have hnm1 : goContains F subjectMarker = false := by
      rw [goContains]
      simp only [decide_eq_false_iff_not]
      intro hinf
      apply hsubjmark.1
      rw [hsm]
      rw [hshapeF, hsm] at hinf
      exact infix_cons_append_right '[' (gs "SUBJECT]") _ _ hinf hbracket
    have hnm2 : goContains F bodyMarker = false := by
      rw [goContains]
      simp only [decide_eq_false_iff_not]
      intro hinf
      apply hsubjmark.2
      rw [hbm]
      rw [hshapeF, hbm] at hinf
      exact infix_cons_append_right '[' (gs "BODY]") _ _ hinf hbracket
    have hsplit : goSplitLines F = [F] := goSplitLines_no_newline F hFnl
    have hMl : findMarkers [F] = (-1, -1) := by
      apply findMarkersAux_no_match
      intro l hl
      rw [List.mem_singleton] at hl
      subst hl
      exact ⟨hnm1, hnm2⟩
    have hjson1 : extractJSON F = [] := extractJSON_no_brace F hbrace
    obtain ⟨c₀, T', hTc⟩ := List.exists_cons_of_ne_nil hTne
    have hjson2 : jsonDecodeCM F = none := by
      have hc₀ := hTall c₀ (hTc ▸ List.mem_cons_self c₀ T')
      have hFc : F = c₀ :: (T' ++ ['('] ++ S ++ [')', ':', ' '] ++ U) := by
        rw [hF, hTc]
        simp
      rw [hFc]
      exact jsonDecodeCM_cons_not_brace c₀ _ hc₀.1 (fun h => hc₀.2.2.2.2.1 h)
    have hpf : parseFirstLine F = (T, S, U) := by
      rw [hF]
      exact parseFirstLine_format_scope T S U hTne
        (fun c hc => ⟨(hTall c hc).1, (hTall c hc).2.1, (hTall c hc).2.2.1,
          (hTall c hc).2.2.2.1⟩)
        hSchars hsubjtrim hUne
    have htext : parseTextCommitMessage F = ⟨T, S, U, []⟩ := by
      have hM1 : (findMarkers (goSplitLines F)).1 = -1 := by rw [hsplit, hMl]
      have hM2 : (findMarkers (goSplitLines F)).2 = -1 := by rw [hsplit, hMl]
      have hlen1 : 0 < (goSplitLines F).length :=
        List.length_pos.mpr (goSplitLines_ne_nil F)
      have hpf' : parseFirstLine (goLineAt (goSplitLines F) 0) = (T, S, U) := by
        rw [hsplit]
        exact hpf
      simp only [parseTextCommitMessage, hM1, hM2, hpf']
      rw [if_neg (show ¬ (0 ≤ (-1 : Int) ∧
        (-1 : Int) < ((goSplitLines F).length : Int) - 1) by omega)]
      rw [if_pos hlen1]
      rw [hsplit]
      have hbl : extractBodyLines [F] (-1 : Int) = [] := by
        simp [extractBodyLines]
      rw [hbl]
      have hcb : cleanupBody (goJoinLines []) = [] := by decide
      simp [hTne, hcb]
    rw [hfmt]
    simp only [parseCommitMessageJSON, hjson1]
    simp only [ne_eq, not_true_eq_false, if_false, hjson2]
    rw [htext]
    rw [if_neg (by simp [hUne])]

/-- C6 witness: `feat(auth): add login timeout` (empty body) round-trips
to exactly its original fields with a nil error. -/
theorem C6_roundtrip_witness :
    parseCommitMessageJSON
        (formatCommitMessage ⟨gs "feat", gs "auth", gs "add login timeout", []⟩
          ⟨.conventionalCommits, false, 72, 500⟩) =
      (⟨gs "feat", gs "auth", gs "add login timeout", []⟩, none) :=
  C6_roundtrip_amended ⟨gs "feat", gs "auth", gs "add login timeout", []⟩
    ⟨.conventionalCommits, false, 72, 500⟩ rfl (by decide) rfl (by decide) (by decide)
    ⟨by decide, by decide⟩ (by decide)

/-- C6 counterexample: the message `feat` / subject `" x"` passes
`validateConventionalCommit` (a leading space is legal), yet rendering
and re-parsing trims the subject to `"x"` — the round trip does not
preserve the fields of every valid message, refuting the claim as
stated. -/
theorem C6_roundtrip_counterexample :
    validateConventionalCommit ⟨gs "feat", [], ' ' :: gs "x", []⟩
        ⟨.conventionalCommits, false, 72, 500⟩ = none ∧
    (parseCommitMessageJSON (formatCommitMessage ⟨gs "feat", [], ' ' :: gs "x", []⟩
        ⟨.conventionalCommits, false, 72, 500⟩)).1.subject = gs "x" ∧
    (' ' :: gs "x" : GoStr) ≠ gs "x" := by
  refine ⟨by decide, by decide, by decide⟩

section LengthEnforcement

/-!
## pkg/ai/ai.go — the subject length enforcement of `GenerateCommitMessage`
(lines 1044-1161): limit check, smart truncation at a word/punctuation
boundary, scope shrinking, and the fixed placeholder subject.
-/

/-- The composed subject length checked against `MaxLength`
(`len(type)+len(scope)+len(subject)+4`, `+2` without scope, or the bare
subject length outside conventional mode). -/
def computedSubjectLength (msg : CommitMessage) (cfg : Config) : Int :=
  if cfg.convention = .conventionalCommits ∧ msg.type' ≠ [] then
    if msg.scope ≠ [] then
      (msg.type'.length : Int) + msg.scope.length + msg.subject.length + 4
    else (msg.type'.length : Int) + msg.subject.length + 2
  else (msg.subject.length : Int)

/-- The backward boundary search (`for i := breakPoint; i > breakPoint-10
&& i > 0; i--`): at most ten indices, none of them zero, looking for a
space, comma or semicolon. -/
def findBreakAux (s : GoStr) : Nat → Nat → Option Nat
  | _, 0 => none
  | i, fuel + 1 =>
    if i = 0 then none
    else if s.getD i '\x00' = ' ' ∨ s.getD i '\x00' = ',' ∨ s.getD i '\x00' = ';' then
      some i
    else findBreakAux s (i - 1) fuel

/-- The break point actually used: the boundary found, else the original. -/
def findBreak (s : GoStr) (bp : Nat) : Nat := (findBreakAux s bp 10).getD bp

/-- The conventional arm of the first truncation pass: cut the subject at
a boundary near `maxSubjectSpace - 3`, appending `"..."`. -/
def firstTruncateAt (msg : CommitMessage) (maxSubjectSpace : Int) : Option CommitMessage :=
  if 3 < maxSubjectSpace then
    if maxSubjectSpace < msg.subject.length then
      some { msg with
        subject := msg.subject.take
          (findBreak msg.subject (maxSubjectSpace - 3).toNat) ++ gs "..." }
    else some msg
  else some msg

/-- The available subject space under the conventional format. -/
def subjectSpace (msg : CommitMessage) (cfg : Config) : Int :=
  if msg.scope ≠ [] then
    cfg.maxLength - msg.type'.length - msg.scope.length - 4
  else cfg.maxLength - msg.type'.length - 2

/-- The first truncation pass: boundary truncation against the available
subject space (conventional with a type) or against `MaxLength - 3`
(otherwise).  A negative Go slice index is modelled as `none`. -/
def firstTruncate (msg : CommitMessage) (cfg : Config) : Option CommitMessage :=
  if cfg.convention = .conventionalCommits ∧ msg.type' ≠ [] then
    firstTruncateAt msg (subjectSpace msg cfg)
  else
    if (cfg.maxLength : Int) < msg.subject.length then
      if cfg.maxLength - 3 < 0 then none
      else some { msg with
        subject := msg.subject.take
          (findBreak msg.subject (cfg.maxLength - 3).toNat) ++ gs "..." }
    else some msg

/-- The type-to-overhead part of the composed subject length. -/
def overheadTS (t s : GoStr) : Int :=
  if s ≠ [] then (t.length : Int) + s.length + 4 else (t.length : Int) + 2

/-- The rendered overhead of a message's own type and scope. -/
def renderedOverhead (msg : CommitMessage) : Int := overheadTS msg.type' msg.scope

/-- The scope-shrinking step of the aggressive truncation: when fewer
than ten characters remain and the scope is longer than five characters,
cut it to five and recompute the available space. -/
def shrinkScopeStep (maxLength : Int) (fixedType fixedScope₀ : GoStr)
    (availableSpace₀ : Int) : GoStr × Int :=
  if availableSpace₀ < 10 then
    if fixedScope₀ ≠ [] ∧ 5 < fixedScope₀.length then
      if fixedScope₀.take 5 ≠ [] then
        (fixedScope₀.take 5,
          maxLength - fixedType.length - (fixedScope₀.take 5).length - 4)
      else (fixedScope₀.take 5, maxLength - fixedType.length - 2)
    else (fixedScope₀, availableSpace₀)
  else (fixedScope₀, availableSpace₀)

/-- The conventional arm of the aggressive pass, applied to the shrunk
scope and its recomputed available space: either the fixed placeholder
subject `"update"` (fewer than ten characters available) or a hard cut
to `availableSpace - 3` plus an ellipsis.  The Go slice
`Subject[:availableSpace-3]` panics when the index exceeds the
subject's length; that is `none`. -/
def aggressiveConv (msg : CommitMessage) (p : GoStr × Int) : Option CommitMessage :=
  if p.2 < 10 then some ⟨msg.type', p.1, gs "update", msg.body⟩
  else if (p.2 - 3).toNat ≤ msg.subject.length then
    some ⟨msg.type', p.1, msg.subject.take (p.2 - 3).toNat ++ gs "...", msg.body⟩
  else none

/-- The aggressive second pass: preserve the type, shrink the scope,
then truncate via `aggressiveConv`; outside conventional mode a hard
cut to `MaxLength - 3`, with a negative slice index as `none`. -/
def aggressiveTruncate (msg : CommitMessage) (cfg : Config) : Option CommitMessage :=
  if cfg.convention = .conventionalCommits ∧ msg.type' ≠ [] then
    aggressiveConv msg
      (shrinkScopeStep cfg.maxLength msg.type' msg.scope (subjectSpace msg cfg))
  else
    if cfg.maxLength - 3 < 0 then none
    else some { msg with
      subject := msg.subject.take (cfg.maxLength - 3).toNat ++ gs "..." }

/-- The whole length-enforcement step: nothing when within the limit,
else the first truncation pass, a re-check, and the aggressive pass. -/
def enforceSubjectLength (msg : CommitMessage) (cfg : Config) : Option CommitMessage :=
  if computedSubjectLength msg cfg ≤ cfg.maxLength then some msg
  else
    (firstTruncate msg cfg).bind fun msg₁ =>
      if computedSubjectLength msg₁ cfg ≤ cfg.maxLength then some msg₁
      else aggressiveTruncate msg₁ cfg

end LengthEnforcement

/-- The first truncation pass never touches type or scope. -/
theorem firstTruncate_fields (msg msg₁ : CommitMessage) (cfg : Config)
    (h : firstTruncate msg cfg = some msg₁) :
    msg₁.type' = msg.type' ∧ msg₁.scope = msg.scope := by
  unfold firstTruncate firstTruncateAt at h
  repeat' split at h
  all_goals cases h
  all_goals exact ⟨rfl, rfl⟩

/-- The shrink step leaves the space bookkeeping consistent: the
available space always equals `MaxLength` minus the overhead of the
(possibly shrunk) scope it returns. -/
theorem shrinkScopeStep_spec (maxLength : Int) (T sc : GoStr) :
    (shrinkScopeStep maxLength T sc (maxLength - overheadTS T sc)).2 =
      maxLength - overheadTS T (shrinkScopeStep maxLength T sc
        (maxLength - overheadTS T sc)).1 := by
  unfold shrinkScopeStep
  by_cases h1 : maxLength - overheadTS T sc < 10
  · rw [if_pos h1]
    by_cases h2 : sc ≠ [] ∧ 5 < sc.length
    · rw [if_pos h2]
      have hlen : (sc.take 5).length = 5 := by
        rw [List.length_take]
        omega
      have hne : sc.take 5 ≠ [] := by
        intro hc
        rw [hc] at hlen
        simp at hlen
      rw [if_pos hne]
      simp only [overheadTS, if_pos hne]
      omega
    · rw [if_neg h2]
  · rw [if_neg h1]

/-- The length of the composed subject line rendered by
`FormatCommitMessage` is exactly the enforced quantity. -/
theorem formatSubjectLine_length (msg : CommitMessage) (cfg : Config)
    (hconv : cfg.convention = .conventionalCommits) (htype : msg.type' ≠ []) :
    ((formatSubjectLine msg cfg).length : Int) = computedSubjectLength msg cfg := by
  by_cases h : msg.scope = []
  · have hfs : formatSubjectLine msg cfg = msg.type' ++ gs ": " ++ msg.subject := by
      simp [formatSubjectLine, hconv, h]
    have hcl : computedSubjectLength msg cfg
        = (msg.type'.length : Int) + msg.subject.length + 2 := by
      simp [computedSubjectLength, hconv, htype, h]
    have hcs : ((gs ": ").length : Int) = 2 := by decide
    rw [hfs, hcl]
    simp only [List.length_append]
    push_cast
    omega
  · have hfs : formatSubjectLine msg cfg
        = msg.type' ++ gs "(" ++ msg.scope ++ gs "): " ++ msg.subject := by
      simp [formatSubjectLine, hconv, h]
    have hcl : computedSubjectLength msg cfg
        = (msg.type'.length : Int) + msg.scope.length + msg.subject.length + 4 := by
      simp [computedSubjectLength, hconv, htype, h]
    have hp : ((gs "(").length : Int) = 1 := by decide
    have hps : ((gs "): ").length : Int) = 3 := by decide
    rw [hfs, hcl]
    simp only [List.length_append]
    push_cast
    omega

/-- Under the conventional format with a type, the composed subject
length is the overhead plus the subject's own length. -/
theorem computedSubjectLength_conv (msg : CommitMessage) (cfg : Config)
    (hconv : cfg.convention = .conventionalCommits) (htype : msg.type' ≠ []) :
    computedSubjectLength msg cfg = renderedOverhead msg + msg.subject.length := by
  unfold computedSubjectLength renderedOverhead overheadTS
  rw [if_pos (And.intro hconv htype)]
  split_ifs <;> ring

/-- The subject space is `MaxLength` minus the overhead. -/
theorem subjectSpace_eq (msg : CommitMessage) (cfg : Config) :
    subjectSpace msg cfg = cfg.maxLength - overheadTS msg.type' msg.scope := by
  unfold subjectSpace overheadTS
  split_ifs <;> ring

/-- The aggressive pass keeps the type and bounds the composed subject
length by `MaxLength` or by the placeholder line's own length. -/
theorem aggressiveTruncate_bound (msg msg' : CommitMessage) (cfg : Config)
    (hconv : cfg.convention = .conventionalCommits) (htype : msg.type' ≠ [])
    (h : aggressiveTruncate msg cfg = some msg') :
    msg'.type' = msg.type' ∧
      computedSubjectLength msg' cfg ≤ max cfg.maxLength (renderedOverhead msg' + 6) := by
  unfold aggressiveTruncate at h
  rw [if_pos (And.intro hconv htype)] at h
  set p := shrinkScopeStep cfg.maxLength msg.type' msg.scope (subjectSpace msg cfg) with hp
  have hspec : p.2 = cfg.maxLength - overheadTS msg.type' p.1 := by
    rw [hp, subjectSpace_eq]
    exact shrinkScopeStep_spec cfg.maxLength msg.type' msg.scope
  unfold aggressiveConv at h
  by_cases h10 : p.2 < 10
  · rw [if_pos h10] at h
    injection h with he
    subst he
    refine ⟨rfl, ?_⟩
    have h6 : ((gs "update").length : Int) = 6 := by decide
    have hc : computedSubjectLength ⟨msg.type', p.1, gs "update", msg.body⟩ cfg
        = renderedOverhead ⟨msg.type', p.1, gs "update", msg.body⟩ + 6 := by
      rw [computedSubjectLength_conv ⟨msg.type', p.1, gs "update", msg.body⟩ cfg hconv
        htype, h6]
    rw [hc]
    exact le_max_right _ _
  · rw [if_neg h10] at h
    by_cases hle : (p.2 - 3).toNat ≤ msg.subject.length
    · rw [if_pos hle] at h
      injection h with he
      subst he
      refine ⟨rfl, ?_⟩
      have h3 : ((gs "...").length : Int) = 3 := by decide
      have hlen : ((msg.subject.take (p.2 - 3).toNat ++ gs "...").length : Int)
          = p.2 - 3 + 3 := by
        rw [List.length_append, List.length_take]
        push_cast
        have : ((p.2 - 3).toNat : Int) = p.2 - 3 := Int.toNat_of_nonneg (by omega)
        omega
      have hc := computedSubjectLength_conv
        ⟨msg.type', p.1, msg.subject.take (p.2 - 3).toNat ++ gs "...", msg.body⟩
        cfg hconv htype
      rw [hc]
      have hro : renderedOverhead
          ⟨msg.type', p.1, msg.subject.take (p.2 - 3).toNat ++ gs "...", msg.body⟩
          = overheadTS msg.type' p.1 := rfl
      rw [hro]
      refine le_trans ?_ (le_max_left _ _)
      rw [show (⟨msg.type', p.1, msg.subject.take (p.2 - 3).toNat ++ gs "...", msg.body⟩ :
        CommitMessage).subject = msg.subject.take (p.2 - 3).toNat ++ gs "..." from rfl]
      rw [hlen]
      omega
    · rw [if_neg hle] at h
      cases h

/-- C2.  Corrected form of the length-enforcement claim.  The spec says
the enforcement step guarantees a subject line within `MaxLength`; the
code only guarantees the weaker bound proved here: the commit type is
preserved and the rendered subject line is within `MaxLength` OR is the
fixed placeholder line `type(scope): update`, whose length
(overhead + 6) can exceed `MaxLength`.  Go slice panics in the
enforcement are modelled as `none` and excluded by the hypothesis. -/
theorem C2_length_enforcement_amended (msg msg' : CommitMessage) (cfg : Config)
    (hconv : cfg.convention = .conventionalCommits)
    (htype : msg.type' ≠ [])
    (hmax : 0 < cfg.maxLength)
    (henf : enforceSubjectLength msg cfg = some msg') :
    msg'.type' = msg.type' ∧
      ((formatSubjectLine msg' cfg).length : Int) ≤
        max cfg.maxLength (renderedOverhead msg' + 6) := by
  unfold enforceSubjectLength at henf
  by_cases h0 : computedSubjectLength msg cfg ≤ cfg.maxLength
  · rw [if_pos h0] at henf
    injection henf with he
    subst he
    refine ⟨rfl, ?_⟩
    rw [formatSubjectLine_length msg cfg hconv htype]
    exact le_trans h0 (le_max_left _ _)
  · rw [if_neg h0] at henf
    cases h1 : firstTruncate msg cfg with
    | none =>
      rw [h1] at henf
      cases henf
    | some msg₁ =>
      rw [h1, Option.some_bind] at henf
      obtain ⟨ht1, hs1⟩ := firstTruncate_fields msg msg₁ cfg h1
      have htype₁ : msg₁.type' ≠ [] := by
        rw [ht1]
        exact htype
      by_cases h2 : computedSubjectLength msg₁ cfg ≤ cfg.maxLength
      · rw [if_pos h2] at henf
        injection henf with he
        subst he
        refine ⟨ht1, ?_⟩
        rw [formatSubjectLine_length msg₁ cfg hconv htype₁]
        exact le_trans h2 (le_max_left _ _)
      · rw [if_neg h2] at henf
        obtain ⟨ht2, hb2⟩ := aggressiveTruncate_bound msg₁ msg' cfg hconv htype₁ henf
        have htype' : msg'.type' ≠ [] := by
          rw [ht2]
          exact htype₁
        refine ⟨ht2.trans ht1, ?_⟩
        rw [formatSubjectLine_length msg' cfg hconv htype']
        exact hb2

/-- Witness for C2: the spec's own scenario (`MaxLength = 30`, long
scope) runs the aggressive pass, shrinks the scope to `very-`, and the
rendered line `feat(very-): this is a subj...` meets the bound. -/
theorem C2_length_enforcement_witness :
    enforceSubjectLength
        ⟨gs "feat", gs "very-long-scope-name",
          gs "this is a subject that is far too long for the limit", []⟩
        ⟨.conventionalCommits, false, 30, 500⟩
      = some ⟨gs "feat", gs "very-", gs "this is a subj...", []⟩ ∧
    (⟨gs "feat", gs "very-", gs "this is a subj...", []⟩ : CommitMessage).type'
      = gs "feat" ∧
    ((formatSubjectLine ⟨gs "feat", gs "very-", gs "this is a subj...", []⟩
        ⟨.conventionalCommits, false, 30, 500⟩).length : Int) ≤
      max (30 : Int)
        (renderedOverhead ⟨gs "feat", gs "very-", gs "this is a subj...", []⟩ + 6) := by
  have henf : enforceSubjectLength
      ⟨gs "feat", gs "very-long-scope-name",
        gs "this is a subject that is far too long for the limit", []⟩
      ⟨.conventionalCommits, false, 30, 500⟩
    = some ⟨gs "feat", gs "very-", gs "this is a subj...", []⟩ := by decide
  have h := C2_length_enforcement_amended
    ⟨gs "feat", gs "very-long-scope-name",
      gs "this is a subject that is far too long for the limit", []⟩
    ⟨gs "feat", gs "very-", gs "this is a subj...", []⟩
    ⟨.conventionalCommits, false, 30, 500⟩
    rfl (by decide) (by decide) henf
  exact ⟨henf, h.1, h.2⟩

/-- Counterexample to C2 as stated: with `MaxLength = 12` and type
`refactor`, the aggressive pass emits the placeholder subject and the
rendered line `refactor: update` has length 16, exceeding the limit the
spec promises is always met. -/
theorem C2_length_enforcement_counterexample :
    enforceSubjectLength
        ⟨gs "refactor", [], gs "this subject is way too long", []⟩
        ⟨.conventionalCommits, false, 12, 500⟩
      = some ⟨gs "refactor", [], gs "update", []⟩ ∧
    ((formatSubjectLine ⟨gs "refactor", [], gs "update", []⟩
        ⟨.conventionalCommits, false, 12, 500⟩).length : Int) = 16 ∧
    (12 : Int) <
      ((formatSubjectLine ⟨gs "refactor", [], gs "update", []⟩
        ⟨.conventionalCommits, false, 12, 500⟩).length : Int) := by
  refine ⟨by decide, by decide, by decide⟩

section BudgetAllocator

/-!
## BudgetAllocator (spec §4.3)

The allocator's own source is not part of the repository snapshot; the
definitions below are modelled from the spec text of §4.3, step by step.
-/

/-- Modelled from the spec: a scored file unit as consumed by the
allocator — a priority (may be negative), the memoized token count of
the raw content, and the token costs of its generated summary and of
its one-line stats fallback. -/
structure ScoredFileUnit where
  priority : Int
  tokenCount : Nat
  summaryCost : Nat
  statsCost : Nat
deriving DecidableEq

/-- Modelled from the spec: the tokens emitted for one unit at a given
remaining budget — full raw content when `priority ≥ 100` and
`tokenCount < remaining/2`, else the summary if it fits, else the
stats fallback line. -/
def unitCost (u : ScoredFileUnit) (remaining : Int) : Int :=
  if 100 ≤ u.priority ∧ (u.tokenCount : Int) < remaining / 2 then u.tokenCount
  else if (u.summaryCost : Int) ≤ remaining then u.summaryCost
  else u.statsCost

/-- Modelled from the spec: the greedy single pass of §4.3 step 2-3 over
the priority-descending units.  `T` is the small reserve threshold; once
the remaining budget falls at or below it the scan stops and appends the
truncation notice, whose cost the spec equates with the threshold
itself. -/
def allocScan (T : Int) : List ScoredFileUnit → Int → Int
  | [], _ => 0
  | u :: us, remaining =>
    if remaining ≤ T then T
    else unitCost u remaining + allocScan T us (remaining - unitCost u remaining)

/-- The largest stats-fallback cost among the units. -/
def maxStatsCost : List ScoredFileUnit → Int
  | [] => 0
  | u :: us => max (u.statsCost : Int) (maxStatsCost us)

/-- Modelled from the spec: the token cost of the whole allocator output
— the raw input unchanged for zero files, else the header reserve `H`
plus the scan's emissions against the post-header budget `B - H`. -/
def budgetAllocatorCost (H T rawCost : Int) (units : List ScoredFileUnit) (B : Int) : Int :=
  if units = [] then rawCost
  else H + allocScan T units (B - H)

end BudgetAllocator

/-- The unit cost is never negative. -/
theorem unitCost_nonneg (u : ScoredFileUnit) (r : Int) : 0 ≤ unitCost u r := by
  unfold unitCost
  split_ifs <;> exact Int.natCast_nonneg _

/-- At or below the reserve threshold the scan costs at most the
notice. -/
theorem allocScan_stop (T : Int) (units : List ScoredFileUnit) (r : Int)
    (hT : 0 ≤ T) (hr : r ≤ T) : allocScan T units r ≤ T := by
  cases units with
  | nil => simpa [allocScan] using hT
  | cons u us => simp [allocScan, if_pos hr]

/-- The scan's total emission is bounded by the remaining budget plus
one overshoot: the truncation notice or one stats fallback line. -/
theorem allocScan_le (T : Int) (hT : 0 ≤ T) :
    ∀ (units : List ScoredFileUnit) (r : Int),
      allocScan T units r ≤ max r 0 + max T (maxStatsCost units) := by
  intro units
  induction units with
  | nil =>
    intro r
    simp only [allocScan, maxStatsCost]
    exact add_nonneg (le_max_right r 0) (le_trans hT (le_max_left T 0))
  | cons u us ih =>
    intro r
    simp only [allocScan, maxStatsCost]
    by_cases hstop : r ≤ T
    · rw [if_pos hstop]
      exact le_add_of_nonneg_of_le (le_max_right r 0) (le_max_left T _)
    · rw [if_neg hstop]
      push_neg at hstop
      have e2 : max r 0 = r := max_eq_left (by omega)
      have e3 : max T (maxStatsCost us) ≤ max T (max (u.statsCost : Int) (maxStatsCost us)) :=
        max_le_max le_rfl (le_max_right _ _)
      have hc0 : 0 ≤ unitCost u r := unitCost_nonneg u r
      have hsc : (u.statsCost : Int) ≤ max T (max (u.statsCost : Int) (maxStatsCost us)) :=
        le_trans (le_max_left _ _) (le_max_right _ _)
      by_cases hle : unitCost u r ≤ r
      · have hrec := ih (r - unitCost u r)
        have e1 : max (r - unitCost u r) 0 = r - unitCost u r := max_eq_left (by omega)
        rw [e1] at hrec
        omega
      · have hcost : unitCost u r = (u.statsCost : Int) := by
          unfold unitCost
          unfold unitCost at hle
          split_ifs at hle ⊢ with h1 h2
          · omega
          · omega
          · rfl
        have hrec := allocScan_stop T us (r - unitCost u r) hT (by omega)
        omega

/-- C1.  Corrected form of the budget claim, over the spec-modelled
allocator.  The spec promises the output cost never exceeds the budget
except for a single oversized file's stats line; the algorithm it
prescribes actually admits one overshoot of either kind — the
truncation notice whose reserve is spent after the budget is nearly
exhausted, or one stats fallback emitted when even the summary does not
fit.  The provable bound: for a positive budget covering the header
reserve, the cost is at most `B` plus the larger of the notice reserve
and the largest stats-line cost. -/
theorem C1_budget_allocator_amended (H T rawCost B : Int) (units : List ScoredFileUnit)
    (hT : 0 ≤ T) (hH : 0 ≤ H) (hHB : H ≤ B) (hne : units ≠ []) :
    budgetAllocatorCost H T rawCost units B ≤ B + max T (maxStatsCost units) := by
  unfold budgetAllocatorCost
  rw [if_neg hne]
  have h := allocScan_le T hT units (B - H)
  have e2 : max (B - H) 0 = B - H := max_eq_left (by omega)
  rw [e2] at h
  omega

/-- Witness for C1: a two-file allocation (one full inclusion, one
summary) under budget 50 meets the bound. -/
theorem C1_budget_allocator_witness :
    (0 : Int) ≤ 3 ∧ (0 : Int) ≤ 2 ∧ (2 : Int) ≤ 50 ∧
      ([⟨150, 10, 4, 2⟩, ⟨0, 30, 20, 2⟩] : List ScoredFileUnit) ≠ [] ∧
      budgetAllocatorCost 2 3 0 [⟨150, 10, 4, 2⟩, ⟨0, 30, 20, 2⟩] 50 ≤
        50 + max 3 (maxStatsCost [⟨150, 10, 4, 2⟩, ⟨0, 30, 20, 2⟩]) :=
  ⟨by decide, by decide, by decide, by decide,
    C1_budget_allocator_amended 2 3 0 50 [⟨150, 10, 4, 2⟩, ⟨0, 30, 20, 2⟩]
      (by decide) (by decide) (by decide) (by decide)⟩

/-- Counterexample to C1 as stated: two files, neither oversized and no
stats fallback emitted, yet the cost is 11 against budget 10 — the
summary of the first file leaves one token, so the scan stops and the
truncation notice overspends the reserve.  The spec's only admitted
exception (single-oversized-file stats line) does not cover this. -/
theorem C1_budget_allocator_counterexample :
    budgetAllocatorCost 1 2 0 [⟨0, 100, 8, 5⟩, ⟨0, 100, 8, 5⟩] 10 = 11 ∧
      ¬ budgetAllocatorCost 1 2 0 [⟨0, 100, 8, 5⟩, ⟨0, 100, 8, 5⟩] 10 ≤ 10 ∧
      ([⟨0, 100, 8, 5⟩, ⟨0, 100, 8, 5⟩] : List ScoredFileUnit).length = 2 := by
  refine ⟨by decide, by decide, rfl⟩
